import Mathlib

/-!
Shallow embedding of the interim-fix (efix) conflict resolver of
`plugins/modules/flrtvc.py`: the packaging-date normalizer `to_utc_epoch`,
the candidate checker `check_epkgs`, the installed-level parser
`parse_lpps_info`, the report parser `parse_stdout`, and the control flow
of `run_flrtvc` / `main` around the inventory-gathering step.

Python strings are modelled as Lean `String`s (treated as sequences of
characters), Python `int` as `Int` (unbounded, as in Python), Python dicts
as insertion-ordered association lists with replace-on-insert, and Python
exceptions as `Except String`.
-/

namespace Flrtvc

/-- The six ASCII characters matched by Python's `\s` / stripped by `str.rstrip()`. -/
def pyIsSpace (c : Char) : Bool :=
  c = ' ' || c = '\t' || c = '\n' || c = '\x0d' || c = '\x0b' || c = '\x0c'

/-- Python `str.rstrip()` (trailing-whitespace removal) on ASCII text. -/
def pyRstrip (s : String) : String :=
  ((s.toList.reverse.dropWhile pyIsSpace).reverse).asString

/-- Characters that end a line for Python `str.splitlines()` (ASCII subset;
the source text parsed here is ASCII command output). -/
def pyIsLineBreak (c : Char) : Bool :=
  c = '\n' || c = '\x0d' || c = '\x0b' || c = '\x0c' ||
  c = '\x1c' || c = '\x1d' || c = '\x1e'

/-- Worker for `pySplitlines`: `cur` is the (reversed) current line. -/
def pySplitlinesGo : List Char → List Char → List String
  | [], cur => if cur.isEmpty then [] else [cur.reverse.asString]
  | '\x0d' :: '\n' :: rest, cur => cur.reverse.asString :: pySplitlinesGo rest []
  | c :: rest, cur =>
    if pyIsLineBreak c then cur.reverse.asString :: pySplitlinesGo rest []
    else pySplitlinesGo rest (c :: cur)

/-- Python `str.splitlines()`. -/
def pySplitlines (s : String) : List String :=
  pySplitlinesGo s.toList []

/-- `str.split(sep)` for a one-character separator, keeping empty parts
(structural worker over the character list). -/
def splitOnCharGo (sep : Char) : List Char → List Char → List String
  | [], cur => [cur.reverse.asString]
  | c :: rest, cur =>
    if c = sep then cur.reverse.asString :: splitOnCharGo sep rest []
    else splitOnCharGo sep rest (c :: cur)

/-- Python `s.split(sep)` for a one-character separator. -/
def pySplitOnChar (sep : Char) (s : String) : List String :=
  splitOnCharGo sep s.toList []

/-- Python `os.path.basename`: the part after the last `/`. -/
def pyBasename (s : String) : String :=
  (pySplitOnChar '/' s).getLast!

/-- The numeric value of a list of ASCII digits. -/
def digitsVal (cs : List Char) : Nat :=
  cs.foldl (fun n c => 10 * n + (c.toNat - 48)) 0

/-- Python `int(str)` on the strings produced here (an optional single sign
followed by at least one ASCII digit); `none` models a raised `ValueError`. -/
def pyInt (s : String) : Option Int :=
  match s.toList with
  | [] => none
  | '+' :: ds => if ds ≠ [] ∧ ds.all Char.isDigit then some (digitsVal ds : Int) else none
  | '-' :: ds => if ds ≠ [] ∧ ds.all Char.isDigit then some (-(digitsVal ds : Int)) else none
  | ds => if ds.all Char.isDigit then some (digitsVal ds : Int) else none

/-- `list(map(int, s.split('.')))`; `none` models a raised `ValueError`. -/
def pyIntList (s : String) : Option (List Int) :=
  (pySplitOnChar '.' s).mapM pyInt

/-- Python `<` on `list[int]` (lexicographic; a strict prefix is smaller). -/
def pyListLt : List Int → List Int → Bool
  | [], [] => false
  | [], _ :: _ => true
  | _ :: _, [] => false
  | a :: as, b :: bs => if a < b then true else if b < a then false else pyListLt as bs

/-- `set(a).isdisjoint(set(b))` for lists of strings. -/
def pyIsDisjoint (a b : List String) : Bool :=
  a.all (fun x => !(b.contains x))

/-- Python substring containment `needle in hay`. -/
def pyInStr (needle hay : String) : Bool :=
  hay.toList.tails.any (fun t => needle.toList.isPrefixOf t)

/-- Split a character list into maximal whitespace-free tokens. -/
def wsTokensGo : List Char → List Char → List String
  | [], cur => if cur.isEmpty then [] else [cur.reverse.asString]
  | c :: rest, cur =>
    if pyIsSpace c then
      if cur.isEmpty then wsTokensGo rest []
      else cur.reverse.asString :: wsTokensGo rest []
    else wsTokensGo rest (c :: cur)

/-- The whitespace-separated tokens of a string. -/
def wsTokens (s : String) : List String :=
  wsTokensGo s.toList []

/-- The string starts with a whitespace character. -/
def hasLeadWS (s : String) : Bool :=
  match s.toList with
  | [] => false
  | c :: _ => pyIsSpace c

/-- The string ends with a whitespace character. -/
def hasTrailWS (s : String) : Bool :=
  match s.toList.reverse with
  | [] => false
  | c :: _ => pyIsSpace c

/-- All characters are ASCII digits and the string is nonempty. -/
def allDigits (s : String) : Bool :=
  ¬ s.isEmpty && s.toList.all Char.isDigit

/-- Digits-only string to a natural number. -/
def digitsToNat (s : String) : Nat :=
  digitsVal s.toList

/-- The token matches `\d+:\d+:\d+` exactly. -/
def isTimeTok (s : String) : Bool :=
  match pySplitOnChar ':' s with
  | [h, m, sec] => allDigits h && allDigits m && allDigits sec
  | _ => false

/-- ASCII lower-casing, as Python's case-insensitive regex matching uses. -/
def asciiLower (s : String) : String :=
  (s.toList.map (fun c => if 'A' ≤ c ∧ c ≤ 'Z' then Char.ofNat (c.toNat + 32) else c)).asString

end Flrtvc

namespace Flrtvc

/-! ### `to_utc_epoch` (flrtvc.py lines 527-582)

`time.strptime(date, "%a %b %d %H:%M:%S %Z %Y")` followed by
`calendar.timegm` is modelled by `strptimeTimegm` below; the two regexes of
`to_utc_epoch` are modelled over whitespace tokens (`\S+` runs are exactly
the maximal whitespace-free tokens of the anchored string). -/

/-- `%a`: the C-locale abbreviated weekday names, case-insensitive. -/
def validWeekday (s : String) : Bool :=
  ["mon", "tue", "wed", "thu", "fri", "sat", "sun"].contains (asciiLower s)

/-- `%b`: the C-locale abbreviated month names, case-insensitive. -/
def monthNum (s : String) : Option Nat :=
  ["jan", "feb", "mar", "apr", "may", "jun",
   "jul", "aug", "sep", "oct", "nov", "dec"].indexOf? (asciiLower s) |>.map (· + 1)

/-- `%d`: one or two digits with value 1..31 (the token must be consumed whole). -/
def validDayTok (s : String) : Bool :=
  allDigits s && (s.length = 1 || s.length = 2) && 1 ≤ digitsToNat s && digitsToNat s ≤ 31

/-- `%H`: one digit, or two digits with value ≤ 23. -/
def validHourTok (s : String) : Bool :=
  allDigits s && (s.length = 1 || (s.length = 2 && digitsToNat s ≤ 23))

/-- `%M`: one digit, or two digits with value ≤ 59. -/
def validMinTok (s : String) : Bool :=
  allDigits s && (s.length = 1 || (s.length = 2 && digitsToNat s ≤ 59))

/-- `%S`: one digit, or two digits with value ≤ 61 (leap seconds allowed). -/
def validSecTok (s : String) : Bool :=
  allDigits s && (s.length = 1 || (s.length = 2 && digitsToNat s ≤ 61))

/-- Gregorian leap year. -/
def isLeapYear (y : Nat) : Bool :=
  y % 4 = 0 && (y % 100 ≠ 0 || y % 400 = 0)

/-- Days in each month, as `datetime.date` validates. -/
def daysInMonth (y m : Nat) : Nat :=
  if m = 2 then (if isLeapYear y then 29 else 28)
  else if [4, 6, 9, 11].contains m then 30 else 31

/-- Days before the first day of month `m` within year `y`. -/
def daysBeforeMonth (y m : Nat) : Nat :=
  (List.range (m - 1)).foldl (fun acc i => acc + daysInMonth y (i + 1)) 0

/-- `datetime.date(y, m, d).toordinal()` (proleptic Gregorian, 0001-01-01 is 1). -/
def toOrdinal (y m d : Nat) : Nat :=
  365 * (y - 1) + (y - 1) / 4 - (y - 1) / 100 + (y - 1) / 400 + daysBeforeMonth y m + d

/-- `calendar.timegm` on a validated (y, m, d, h, min, s): seconds since the
Unix epoch; 719163 is the ordinal of 1970-01-01. -/
def timegm (y m d h mi s : Nat) : Int :=
  ((toOrdinal y m d : Int) - 719163) * 86400 + h * 3600 + mi * 60 + s

/-- `time.strptime(f"{wd} {mo} {day} {time} UTC {year}", "%a %b %d %H:%M:%S %Z %Y")`
followed by `calendar.timegm`; `none` models a raised `ValueError`
(including `datetime.date`'s calendar validation inside `_strptime`). -/
def strptimeTimegm (wd mo day time year : String) : Option Int :=
  match monthNum mo, pySplitOnChar ':' time with
  | some m, [h, mi, s] =>
    if validWeekday wd && validDayTok day &&
       validHourTok h && validMinTok mi && validSecTok s &&
       allDigits year && year.length = 4 && 1 ≤ digitsToNat year &&
       digitsToNat day ≤ daysInMonth (digitsToNat year) m then
      some (timegm (digitsToNat year) m (digitsToNat day)
             (digitsToNat h) (digitsToNat mi) (digitsToNat s))
    else none
  | _, _ => none

/-- The `shift` table of `to_utc_epoch`, with the UTC offsets converted from
hours to seconds (the source stores hours, e.g. IST = 5.5 h = 19800 s, and
multiplies by 3600). -/
def shiftTable : List (String × Int) :=
  [("CDT", -18000), ("CEST", 7200), ("CET", 3600), ("CST", -21600), ("CT", -21600),
   ("EDT", -14400), ("EET", 7200), ("EST", -18000), ("ET", -18000),
   ("IST", 19800),
   ("JST", 32400),
   ("MSK", 10800), ("MT", 7200),
   ("NZST", 43200),
   ("PDT", -25200), ("PST", -28800),
   ("SAST", 7200),
   ("UTC", 0),
   ("WEST", 3600), ("WET", 0)]

/-- Result of the two anchored regexes of `to_utc_epoch`: the first expects
`part1 year`, the second `part1 TZ year`, where `part1` is
`\S+\s+\S+\s+\d+\s+\d+:\d+:\d+` and `year` is `\d{4}`; returns
`(t1, t2, t3, t4, year, optional TZ token)`. -/
def matchDateTokens (date : String) :
    Option (String × String × String × String × String × Option String) :=
  if hasLeadWS date || hasTrailWS date then none
  else
    match wsTokens date with
    | [t1, t2, t3, t4, y] =>
      if allDigits t3 && isTimeTok t4 && allDigits y && y.length = 4 then
        some (t1, t2, t3, t4, y, none)
      else none
    | [t1, t2, t3, t4, tz, y] =>
      if allDigits t3 && isTimeTok t4 && allDigits y && y.length = 4 then
        some (t1, t2, t3, t4, y, some tz)
      else none
    | _ => none

/-- `to_utc_epoch` (flrtvc.py lines 527-582): packaging date string to
`(seconds from the Unix epoch, message)`; `(-1, msg)` on failure.  When no
timezone token is present `TZ` stays `'UTC'` (offset 0); an unknown token
falls back to `'UTC'` with the (literal) warning of line 577. -/
def to_utc_epoch (date : String) : Int × String :=
  match matchDateTokens date with
  | none => (-1, "bad packaging date format")
  | some (t1, t2, t3, t4, y, tz) =>
    match strptimeTimegm t1 t2 t3 t4 y with
    | none => (-1, "EXCEPTION: cannot parse packaging date")
    | some sec =>
      match tz with
      | none => (sec - 0, "")
      | some z =>
        match List.lookup z shiftTable with
        | some off => (sec - off, "")
        | none => (sec - 0, "Unsuported Time Zone: \"TZ\", using \"UTC\"")

end Flrtvc

namespace Flrtvc

/-! ### Data model (flrtvc.py `check_epkgs`, lines 585-768)

An installed-package level as built by `parse_lpps_info` (the `'str'` and
`'int'` entries), an installed efix as parsed by `parse_emgr`, and the
per-candidate inputs: each candidate is its artifact path together with the
result (`rc`, `stdout`) of the metadata inspection command
`emgr -dXv3 -e <path> | grep -p -e PREREQ -e PACKAG` run on it. -/

structure LppLevel where
  str : String
  int : List Int
deriving Repr, DecidableEq

/-- The `lpps` dict: fileset name to current level (insertion-ordered,
replace-on-insert, looked up by key). -/
abbrev Lpps := List (String × LppLevel)

structure EfixInfo where
  files : List String
  packages : List String
deriving Repr, DecidableEq

structure EpkgInput where
  path : String
  rc : Int
  stdout : String
deriving Repr, DecidableEq

/-- The per-candidate record built by `check_epkgs` (lines 616-623).
The source keeps `prereq` as a dict keyed by package whose entries are only
read back on the line that wrote them; it is carried here as the list of
all parsed `(package, minlvl, maxlvl)` triples. -/
structure Epkg where
  path : String
  label : String
  pkg_date : Option String
  sec_from_epoch : Int
  filesets : List String
  files : List String
  prereq : List (String × String × String)
  reject : Option String
deriving Repr, DecidableEq

def initEpkg (path : String) : Epkg :=
  { path := path, label := "", pkg_date := none, sec_from_epoch := -1,
    filesets := [], files := [], prereq := [], reject := none }

/-- Replace-on-insert for an insertion-ordered dict. -/
def insertReplace {α : Type} : List (String × α) → String → α → List (String × α)
  | [], k, v => [(k, v)]
  | (k', v') :: rest, k, v =>
    if k' = k then (k, v) :: rest else (k', v') :: insertReplace rest k v

/-- Drop a literal prefix. -/
def dropLit (lit : String) (cs : List Char) : Option (List Char) :=
  if lit.toList.isPrefixOf cs then some (cs.drop lit.length) else none

/-- `^LABEL:\s+(\S+)$` on the (already rstripped) line. -/
def matchLabel (line : String) : Option String :=
  match dropLit "LABEL:" line.toList with
  | none => none
  | some r1 =>
    let (w, r2) := r1.span pyIsSpace
    if w.isEmpty then none
    else
      let (tok, r3) := r2.span (fun c => !pyIsSpace c)
      if tok.isEmpty || !r3.isEmpty then none else some tok.asString

/-- `^PACKAGING\s+DATE:\s+(\S+\s+\S+\s+\d+\s+\d+:\d+:\d+\s+\S*\s*\S+).*$`:
the captured group keeps the original separators; after the time field the
greedy `\S*\s*\S+` extends the group over the next one or two tokens. -/
def matchPkgDate (line : String) : Option String :=
  match dropLit "PACKAGING" line.toList with
  | none => none
  | some r1 =>
    let (w1, r2) := r1.span pyIsSpace
    if w1.isEmpty then none
    else
      match dropLit "DATE:" r2 with
      | none => none
      | some r3 =>
        let (w2, r4) := r3.span pyIsSpace
        if w2.isEmpty then none
        else
          let (t1, a1) := r4.span (fun c => !pyIsSpace c)
          let (s1, a2) := a1.span pyIsSpace
          let (t2, a3) := a2.span (fun c => !pyIsSpace c)
          let (s2, a4) := a3.span pyIsSpace
          let (t3, a5) := a4.span (fun c => !pyIsSpace c)
          let (s3, a6) := a5.span pyIsSpace
          let (t4, a7) := a6.span (fun c => !pyIsSpace c)
          let (s4, a8) := a7.span pyIsSpace
          let (t5, a9) := a8.span (fun c => !pyIsSpace c)
          if t1.isEmpty || s1.isEmpty || t2.isEmpty || s2.isEmpty ||
             !allDigits t3.asString || s3.isEmpty || !isTimeTok t4.asString ||
             s4.isEmpty || t5.isEmpty then none
          else
            let (s5, a10) := a9.span pyIsSpace
            let (t6, _) := a10.span (fun c => !pyIsSpace c)
            if t6.isEmpty then
              some (t1 ++ s1 ++ t2 ++ s2 ++ t3 ++ s3 ++ t4 ++ s4 ++ t5).asString
            else
              some (t1 ++ s1 ++ t2 ++ s2 ++ t3 ++ s3 ++ t4 ++ s4 ++ t5 ++ s5 ++ t6).asString

/-- `^\s+PACKAGE:\s+(\S+)\s*?$` and `^\s+LOCATION:\s+(\S+)\s*?$`. -/
def matchTagged (tag : String) (line : String) : Option String :=
  let (w1, r1) := line.toList.span pyIsSpace
  if w1.isEmpty then none
  else
    match dropLit tag r1 with
    | none => none
    | some r2 =>
      let (w2, r3) := r2.span pyIsSpace
      if w2.isEmpty then none
      else
        let (tok, r4) := r3.span (fun c => !pyIsSpace c)
        if tok.isEmpty || !r4.all pyIsSpace then none else some tok.asString

/-- The character class `[\d+\.]` of the prerequisite-level regex
(note: it accepts `+` anywhere in a level string). -/
def isLvlChar (c : Char) : Bool :=
  c.isDigit || c = '+' || c = '.'

/-- `^(\S+)\s+([\d+\.]+)\s+([\d+\.]+)\s*?$`. -/
def matchPrereq (line : String) : Option (String × String × String) :=
  if hasLeadWS line then none
  else
    match wsTokens line with
    | [t1, t2, t3] =>
      if t2.toList.all isLvlChar && t3.toList.all isLvlChar then some (t1, t2, t3) else none
    | _ => none

/-- The reject message of lines 700-701; the f-string line continuation
keeps the 20 leading spaces of the continuation line after `"string: "`. -/
def prereqLevelMsg (path p mn lvlStr mx : String) : String :=
  pyBasename path ++ ": prerequisite " ++ p ++
    " levels do not satisfy condition string: " ++
    "                    " ++ mn ++ " =< " ++ lvlStr ++ " =< " ++ mx

/-- One iteration of the metadata-parsing loop of `check_epkgs`
(lines 638-704) on one line; the `Bool` is true when the loop `break`s;
`.error` models a raised `ValueError` from `int()`. -/
def processLine (lpps : Lpps) (st : Epkg) (l : String) : Except String (Bool × Epkg) :=
  let line := pyRstrip l
  if line.toList.isEmpty || ("+".toList.isPrefixOf line.toList) then .ok (false, st)
  else
    match (if st.label = "" then matchLabel line else none) with
    | some lab => .ok (false, { st with label := lab })
    | none =>
      match (if st.pkg_date = none then matchPkgDate line else none) with
      | some d => .ok (false, { st with pkg_date := some d })
      | none =>
        match matchTagged "PACKAGE:" line with
        | some p =>
          let fs := if st.filesets.contains p then st.filesets else st.filesets ++ [p]
          .ok (false, { st with filesets := fs })
        | none =>
          match matchTagged "LOCATION:" line with
          | some f =>
            let fs := if st.files.contains f then st.files else st.files ++ [f]
            .ok (false, { st with files := fs })
          | none =>
            match matchPrereq line with
            | none => .ok (false, st)
            | some (p, mn, mx) =>
              let st := { st with prereq := st.prereq ++ [(p, mn, mx)] }
              match List.lookup p lpps with
              | none =>
                let msg := pyBasename st.path ++ ": prerequisite missing: " ++ p
                .ok (true, { st with reject := some msg })
              | some lvl =>
                match pyIntList mn, pyIntList mx with
                | some minlvl_i, some maxlvl_i =>
                  if pyListLt lvl.int minlvl_i || pyListLt maxlvl_i lvl.int then
                    let msg := prereqLevelMsg st.path p mn lvl.str mx
                    .ok (true, { st with reject := some msg })
                  else .ok (false, st)
                | _, _ => .error "ValueError: invalid literal for int() with base 10"

/-- The metadata-parsing loop of `check_epkgs` over all stdout lines. -/
def parseEpkgLines (lpps : Lpps) (st : Epkg) : List String → Except String Epkg
  | [] => .ok st
  | l :: ls => do
    match ← processLine lpps st l with
    | (true, st') => .ok st'
    | (false, st') => parseEpkgLines lpps st' ls

/-- The `locked_files` dict (lines 607-611): file to the first installed
efix claiming it. -/
def lockedFilesOf (efixes : List (String × EfixInfo)) : List (String × String) :=
  efixes.foldl
    (fun acc e =>
      e.2.files.foldl
        (fun acc2 f => if (List.lookup f acc2).isSome then acc2 else acc2 ++ [(f, e.1)]) acc)
    []

/-- The installed-lock scan (lines 710-721) over the candidate's files:
every conflicting file overwrites `reject` and appends its own entry to the
reject list (the final `continue` of the loop body does not exit the scan). -/
def lockScanGo (locked : List (String × String)) (st : Epkg) :
    List String → Epkg × List String
  | [] => (st, [])
  | f :: fs =>
    match List.lookup f locked with
    | some lbl =>
      let msg := pyBasename st.path ++ ": installed efix " ++ lbl ++ " is locking " ++ f
      let (st', rest) := lockScanGo locked { st with reject := some msg } fs
      (st', msg :: rest)
    | none => lockScanGo locked st fs

def lockScan (locked : List (String × String)) (st : Epkg) : Epkg × List String :=
  lockScanGo locked st st.files

/-- One iteration of the candidate loop of `check_epkgs` (lines 615-734):
parse the inspection stdout, check prerequisites inline, scan for installed
locks, convert the packaging date; yields the reject entries contributed
and the surviving record, if any.  `rc` only produces a log message
(line 629-634): the candidate is kept either way. -/
def processOne (lpps : Lpps) (locked : List (String × String)) (inp : EpkgInput) :
    Except String (List String × Option Epkg) := do
  let st ← parseEpkgLines lpps (initEpkg inp.path) (pySplitlines inp.stdout)
  match st.reject with
  | some r => .ok ([r], none)
  | none =>
    let (st2, rejs) := lockScan locked st
    match st2.reject with
    | some _ => .ok (rejs, none)
    | none =>
      match st2.pkg_date with
      | some d => .ok ([], some { st2 with sec_from_epoch := (to_utc_epoch d).1 })
      | none => .ok ([], some st2)

/-- The candidate loop, accumulating the `epkgs_info` dict and the
`epkgs_reject` list. -/
def checkEpkgsGo (lpps : Lpps) (locked : List (String × String)) :
    List EpkgInput → List (String × Epkg) → List String →
    Except String (List (String × Epkg) × List String)
  | [], infos, rejs => .ok (infos, rejs)
  | inp :: rest, infos, rejs => do
    match ← processOne lpps locked inp with
    | (rs, none) => checkEpkgsGo lpps locked rest infos (rejs ++ rs)
    | (_, some e) => checkEpkgsGo lpps locked rest (insertReplace infos e.path e) rejs

/-- Stable insertion of `x` into a descending-sorted list: `x` goes after
every element of key `≥ key x` (Python `sorted(..., reverse=True)` keeps
equal elements in input order). -/
def insertDescBy {α : Type} (key : α → Int) (x : α) : List α → List α
  | [] => [x]
  | y :: ys => if key y < key x then x :: y :: ys else y :: insertDescBy key x ys

/-- `sorted(items, key=..., reverse=True)`: stable descending sort. -/
def sortDescBy {α : Type} (key : α → Int) (l : List α) : List α :=
  l.foldl (fun acc x => insertDescBy key x acc) []

/-- Python `<` on strings: lexicographic comparison of code points. -/
def pyStrLt : List Char → List Char → Bool
  | [], [] => false
  | [], _ :: _ => true
  | _ :: _, [] => false
  | a :: as, b :: bs =>
    if a.toNat < b.toNat then true
    else if b.toNat < a.toNat then false
    else pyStrLt as bs

/-- `sorted(strings)`: ascending sort (line 766). -/
def insertAscStr (x : String) : List String → List String
  | [] => [x]
  | y :: ys => if pyStrLt x.toList y.toList then x :: y :: ys else y :: insertAscStr x ys

def sortAscStr (l : List String) : List String :=
  l.foldl (fun acc x => insertAscStr x acc) []

/-- The interlock exclusion walk (lines 747-764) over the date-sorted
candidates: accept a candidate when its files are disjoint from the
accumulated `global_file_locks`, else reject it; the source marks rejected
keys and then removes them from the sorted key list, which (keys being
unique dict keys) yields exactly the accepted sublist. -/
def greedyScan : List String → List (String × Epkg) → List (String × Epkg) × List String
  | _, [] => ([], [])
  | locks, (p, e) :: rest =>
    if pyIsDisjoint e.files locks then
      let (acc, rej) := greedyScan (locks ++ e.files) rest
      ((p, e) :: acc, rej)
    else
      let (acc, rej) := greedyScan locks rest
      (acc, (pyBasename e.path ++ ": locked by previous efix to install") :: rej)

/-- The packaging-date key of the sort at lines 737-745. -/
def secKey (pe : String × Epkg) : Int :=
  pe.2.sec_from_epoch

/-- `check_epkgs(epkg_list, lpps, efixes)` (lines 585-768): each element of
`epkg_list` carries its path and the inspection command's result; returns
`(epkgs to install ordered by packaging date, rejected entries ordered by
label)`; `.error` models an exception escaping the call. -/
def check_epkgs (epkg_list : List EpkgInput) (lpps : Lpps)
    (efixes : List (String × EfixInfo)) :
    Except String (List String × List String) := do
  let locked := lockedFilesOf efixes
  let (infos, rejs) ← checkEpkgsGo lpps locked epkg_list [] []
  let (accepted, rejs2) := greedyScan [] (sortDescBy secKey infos)
  .ok (accepted.map Prod.fst, sortAscStr (rejs ++ rejs2))

/-- The accepted candidates of a `check_epkgs` run, as full records. -/
def acceptedEpkgs (epkg_list : List EpkgInput) (lpps : Lpps)
    (efixes : List (String × EfixInfo)) : Except String (List Epkg) := do
  let (infos, _) ← checkEpkgsGo lpps (lockedFilesOf efixes) epkg_list [] []
  .ok ((greedyScan [] (sortDescBy secKey infos)).1.map Prod.snd)

end Flrtvc

namespace Flrtvc

/-! ### `parse_lpps_info` (flrtvc.py lines 771-808)

Each line of the `lslpp -Lcq` output file is split on `:`; field 1 is the
fileset name and field 2 the level.  The level string is stored verbatim as
`'str'`; for `'int'`, dashes are first rewritten to dots and every
dot-separated segment is matched against `^(\d+)(\D+\S*)?$` (a number with
an optional non-numeric suffix); matching segments contribute their leading
number, anything else is skipped with a message. -/

/-- Does the character-list match `(\D+\S*)?` entirely (empty, or splittable
into a nonempty non-digit part followed by a whitespace-free part)? -/
def versionSuffixOk (cs : List Char) : Bool :=
  cs.isEmpty ||
    (List.range cs.length).any fun j =>
      (cs.take (j + 1)).all (fun c => !c.isDigit) &&
      (cs.drop (j + 1)).all (fun c => !pyIsSpace c)

/-- `^(\d+)(\D+\S*)?$` on one version segment: the leading number, if the
segment matches. -/
def matchVersionSeg (s : String) : Option Nat :=
  let (ds, rest) := s.toList.span Char.isDigit
  if ds.isEmpty then none
  else if versionSuffixOk rest then some (digitsToNat ds.asString) else none

/-- `re.sub(r'-', '.', s)`. -/
def pyDashToDot (s : String) : String :=
  (s.toList.map (fun c => if c = '-' then '.' else c)).asString

/-- The integer vector of a level string (lines 791-806): dashes to dots,
then each matching dot-segment contributes its number. -/
def parseVersionInt (s : String) : List Int :=
  (pySplitOnChar '.' (pyDashToDot s)).foldl
    (fun acc seg =>
      match matchVersionSeg seg with
      | some n => acc ++ [(n : Int)]
      | none => acc) []

/-- `parse_lpps_info` on the lines of the lslpp file (each line as Python's
file iteration yields it, i.e. including any trailing newline; lines with
fewer than three `:`-fields are skipped). -/
def parse_lpps_info (lines : List String) : Lpps :=
  lines.foldl
    (fun acc myline =>
      let mylist := pySplitOnChar ':' myline
      if mylist.length < 3 then acc
      else
        let name := mylist.get! 1
        let ver := mylist.get! 2
        insertReplace acc name ⟨ver, parseVersionInt ver⟩)
    []

end Flrtvc

namespace Flrtvc

/-! ### `parse_stdout` (flrtvc.py lines 838-872)

The fixed thirteen-field header is searched by a `while` loop that indexes
`stdout[index]` without a bound check: if no line equals the header the
loop raises `IndexError` (modelled by `.error ()`).  The system type comes
from `get_system_type` and is `"AIX"` or `"VIOS"`. -/

def flrtvcHeader : String :=
  "Fileset|Current Version|Type|EFix Installed|Abstract|Unsafe Versions|APARs" ++
  "|Bulletin URL|Download URL|CVSS Base Score|Reboot Required|Last Update|Fixed In"

/-- `parse_stdout(stdout)`: `.error ()` models the `IndexError` raised when
no line equals the header. -/
def parse_stdout (system_type : String) (stdout : String) : Except Unit (List String) :=
  let lines := pySplitlines stdout
  match lines.findIdx? (· = flrtvcHeader) with
  | none => .error ()
  | some index =>
    .ok ((lines.drop index).foldl
      (fun parsed line =>
        let fixed_in_val := (pySplitOnChar '|' line).getLast!
        if pyInStr "See Bulletin" fixed_in_val then parsed ++ [line]
        else
          let parsed := if pyInStr "-" fixed_in_val && system_type = "AIX" then
            parsed ++ [line] else parsed
          if pyInStr "." fixed_in_val && system_type = "VIOS" then
            parsed ++ [line] else parsed)
      [flrtvcHeader])

end Flrtvc

namespace Flrtvc

/-! ### `run_flrtvc` (lines 962-1048) and the resolution flow of `main`
(lines 1380-1416)

Only the control flow around the inventory-gathering step is modelled: the
two worker threads write `lslpp.txt` and `emgr.txt` and are joined by
`wait_all()`; afterwards `run_flrtvc` checks that both files exist and
returns `False` when either is missing, before the flrtvc script is ever
run.  `main` calls `module.fail_json` (which terminates the run) whenever
`run_flrtvc` returns `False`, so `run_parser`, `run_downloader` (whose
`check_epkgs` call is step `4.2.check`) and `run_installer` are never
reached.  The external world is an oracle record; log messages are
omitted as elsewhere. -/

structure FlrtvcEnv where
  /-- `os.path.exists(lslpp_file)` after `wait_all()`. -/
  lslpp_exists : Bool
  /-- `os.path.exists(emgr_file)` after `wait_all()`. -/
  emgr_exists : Bool
  /-- Exit code of the flrtvc script (line 1014). -/
  flrtvc_rc : Int
  /-- Stdout of the flrtvc script. -/
  flrtvc_stdout : String
  /-- `"AIX"` or `"VIOS"`, from `get_system_type`. -/
  system_type : String
deriving Repr, DecidableEq

/-- The calls `run_flrtvc` and the resolution part of `main` make, in order. -/
inductive ResolveEvent where
  /-- Running the downloaded flrtvc script (line 1014). -/
  | runFlrtvcScript
  /-- `parse_stdout(stdout)` (line 1022). -/
  | parseStdoutCall
  /-- `run_parser(...)` (line 1398). -/
  | runParserCall
  /-- `run_downloader(...)` (line 1404), which performs the per-candidate
  `check_epkgs` step `4.2.check`. -/
  | runDownloaderCall
deriving Repr, DecidableEq

/-- `run_flrtvc` outcomes: `False`, early `exit_json` on "No
vulnerabilities" (line 1047), `True`, or an uncaught `IndexError`
propagating out of `parse_stdout`. -/
inductive RunFlrtvcRes where
  | returnedFalse
  | exitedNoVuln
  | returnedTrue
  | raisedIndexError
deriving Repr, DecidableEq

/-- `run_flrtvc` (lines 962-1048) after `wait_all()`: the file-existence
check of lines 994-1000, then the flrtvc script run and report parse. -/
def run_flrtvc (env : FlrtvcEnv) : RunFlrtvcRes × List ResolveEvent :=
  if !env.lslpp_exists || !env.emgr_exists then
    (.returnedFalse, [])
  else if env.flrtvc_rc ≠ 0 ∧ env.flrtvc_rc ≠ 2 then
    (.returnedFalse, [.runFlrtvcScript])
  else
    match parse_stdout env.system_type env.flrtvc_stdout with
    | .error _ => (.raisedIndexError, [.runFlrtvcScript, .parseStdoutCall])
    | .ok _ =>
      if pyInStr "No vulnerabilities" env.flrtvc_stdout then
        (.exitedNoVuln, [.runFlrtvcScript, .parseStdoutCall])
      else (.returnedTrue, [.runFlrtvcScript, .parseStdoutCall])

/-- Outcome of the resolution pass of `main`. -/
inductive MainOutcome where
  /-- `module.fail_json` with the given `results['msg']` (line 1381-1386). -/
  | failed (msg : String)
  /-- `module.exit_json` before the parse step. -/
  | exited
  /-- An exception propagated out of the module. -/
  | raised
  /-- The pass went on to parse / download / check the candidates. -/
  | proceeded
deriving Repr, DecidableEq

/-- The resolution pass of `main` (lines 1380-1404): run `run_flrtvc`,
fail the batch when it returns `False`, otherwise go on to `run_parser`
and `run_downloader` (the per-candidate checks). -/
def mainResolution (env : FlrtvcEnv) : MainOutcome × List ResolveEvent :=
  match run_flrtvc env with
  | (.returnedFalse, evs) =>
    (.failed "Failed to get vulnerabilities report, system will not be updated", evs)
  | (.exitedNoVuln, evs) => (.exited, evs)
  | (.raisedIndexError, evs) => (.raised, evs)
  | (.returnedTrue, evs) =>
    (.proceeded, evs ++ [.runParserCall, .runDownloaderCall])

end Flrtvc

namespace Flrtvc

/-! ## Claim theorems -/

/-- C5: `to_utc_epoch` maps a packaging-date string with a known timezone
abbreviation to the absolute UTC epoch by subtracting the table offset
(`"Mon Oct 9 23:35:09 CDT 2017"` yields the epoch of UTC
2017-10-10 04:35:09; the half-hour offset IST = +5.5 h = 19800 s is
supported); a string with no timezone token is treated as UTC; an unknown
abbreviation is treated as UTC with a warning message; and a string not
matching the expected shape yields `(-1, descriptive message)` without
raising. -/
theorem c5_to_utc_epoch_cases :
    to_utc_epoch "Mon Oct 9 23:35:09 CDT 2017" = (timegm 2017 10 10 4 35 9, "") ∧
    to_utc_epoch "Mon Oct 9 23:35:09 IST 2017" = (timegm 2017 10 9 23 35 9 - 19800, "") ∧
    to_utc_epoch "Mon Oct 9 23:35:09 2017" = (timegm 2017 10 9 23 35 9, "") ∧
    to_utc_epoch "Mon Oct 9 23:35:09 XXX 2017" =
      (timegm 2017 10 9 23 35 9, "Unsuported Time Zone: \"TZ\", using \"UTC\"") ∧
    to_utc_epoch "not a date" = (-1, "bad packaging date format") ∧
    to_utc_epoch "Foo Bar 10 10:10:10 2017" = (-1, "EXCEPTION: cannot parse packaging date") :=
  ⟨rfl, rfl, rfl, rfl, rfl, rfl⟩

/-- C10: `parse_stdout` returns normally exactly when some line of its
input equals the fixed thirteen-field FLRTVC header line; otherwise the
header-search loop indexes past the end of the split line list and raises
`IndexError` (modelled as `.error ()`). -/
theorem c10_parse_stdout_header_total (system_type stdout : String) :
    parse_stdout system_type stdout = Except.error () ↔
      flrtvcHeader ∉ pySplitlines stdout := by
  simp only [parse_stdout]
  cases h : List.findIdx? (fun x => decide (x = flrtvcHeader)) (pySplitlines stdout) with
  | none =>
    simp only [h]
    rw [List.findIdx?_eq_none_iff] at h
    constructor
    · intro _ hmem
      have := h _ hmem
      simp at this
    · intro _
      trivial
  | some i =>
    simp only [h]
    constructor
    · intro hcontra
      exact Except.noConfusion hcontra
    · intro hnot
      exfalso
      have hnone : List.findIdx? (fun x => decide (x = flrtvcHeader)) (pySplitlines stdout) = none := by
        rw [List.findIdx?_eq_none_iff]
        intro x hx
        simp only [decide_eq_false_iff_not]
        intro heq
        exact hnot (heq ▸ hx)
      rw [h] at hnone
      cases hnone

/-- C4 fails on the code: a single candidate whose two files are both
locked by the installed efix `E1` contributes two entries to the rejected
list of the same `check_epkgs` run (the final `continue` of the inner scan
at flrtvc.py line 721 is the last statement of the loop body, so the scan
does not exit after the first conflict). -/
theorem c4_counterexample :
    check_epkgs [⟨"/w/e1.epkg", 0, "   LOCATION:      /f1\n   LOCATION:      /f2\n"⟩] []
        [("E1", ⟨["/f1", "/f2"], []⟩)] =
      Except.ok ([], ["e1.epkg: installed efix E1 is locking /f1",
                      "e1.epkg: installed efix E1 is locking /f2"]) := by
  rfl

/-- Worker lemma: the installed-lock scan emits exactly one rejected entry
per file of the candidate found in the `locked_files` table. -/
theorem lockScanGo_entries (locked : List (String × String)) (fs : List String) :
    ∀ st : Epkg,
      (lockScanGo locked st fs).2 = fs.filterMap (fun f =>
        (List.lookup f locked).map (fun lbl =>
          pyBasename st.path ++ ": installed efix " ++ lbl ++ " is locking " ++ f)) := by
  induction fs with
  | nil => intro st; rfl
  | cons f fs ih =>
    intro st
    unfold lockScanGo
    cases h : List.lookup f locked with
    | none => simpa [h] using ih st
    | some lbl => simpa [h] using ih { st with reject := some (pyBasename st.path ++
        ": installed efix " ++ lbl ++ " is locking " ++ f) }

/-- C4 amended: the inner scan over a candidate's files does not exit
early; every file of the candidate locked by an installed efix contributes
its own entry to the rejected list (so a candidate with k conflicting
files adds k entries, not at most one). -/
theorem c4_one_entry_per_locked_file (locked : List (String × String)) (st : Epkg) :
    (lockScan locked st).2 = st.files.filterMap (fun f =>
      (List.lookup f locked).map (fun lbl =>
        pyBasename st.path ++ ": installed efix " ++ lbl ++ " is locking " ++ f)) :=
  lockScanGo_entries locked st.files st

/-- C9 fails on the code: on a metadata line whose level fields match the
prerequisite regex (whose character class `[\d+\.]` accepts `+`) but are not
valid integer literals, `check_epkgs` raises `ValueError` from `int()`
instead of keeping or rejecting the candidate: here the single candidate's
line `"p 1+1 2"` aborts the whole call. -/
theorem c9_check_epkgs_value_error :
    check_epkgs [⟨"/w/e2.epkg", 0, "p 1+1 2\n"⟩] [("p", ⟨"1.0", [1, 0]⟩)] [] =
      Except.error "ValueError: invalid literal for int() with base 10" := by
  rfl

/-- C8: when either inventory file is missing after the two worker threads
are joined, `run_flrtvc` returns `False` having run nothing (the flrtvc
script is not invoked and its report is not parsed), and `main` fails the
batch without reaching `run_parser` or `run_downloader` (the step that
performs the per-candidate `check_epkgs` pass). -/
theorem c8_inventory_failure_no_checks (env : FlrtvcEnv)
    (h : env.lslpp_exists = false ∨ env.emgr_exists = false) :
    run_flrtvc env = (.returnedFalse, []) ∧
    mainResolution env =
      (.failed "Failed to get vulnerabilities report, system will not be updated", []) := by
  have hr : run_flrtvc env = (.returnedFalse, []) := by
    unfold run_flrtvc
    rcases h with h | h <;> simp [h]
  refine ⟨hr, ?_⟩
  unfold mainResolution
  rw [hr]

/-- Witness for C8 at a concrete environment. -/
theorem c8_inventory_failure_no_checks_witness :
    run_flrtvc ⟨false, true, 0, "", "AIX"⟩ = (.returnedFalse, []) ∧
    mainResolution ⟨false, true, 0, "", "AIX"⟩ =
      (.failed "Failed to get vulnerabilities report, system will not be updated", []) :=
  c8_inventory_failure_no_checks ⟨false, true, 0, "", "AIX"⟩ (Or.inl rfl)

end Flrtvc

namespace Flrtvc

/-- C6: when the metadata loop reaches a prerequisite line whose package is
absent from the installed snapshot, the candidate is rejected on the spot
with reason `"<fix>: prerequisite missing: <package>"` (the fix named by
the basename of its path) and no later line — in particular no further
prerequisite — is evaluated: the result does not depend on the remaining
lines. -/
theorem c6_prereq_missing_stops (lpps : Lpps) (st : Epkg) (l : String)
    (rest rest' : List String) (p mn mx : String)
    (hne : (pyRstrip l).toList.isEmpty = false)
    (hcm : ("+".toList.isPrefixOf (pyRstrip l).toList) = false)
    (hlab : matchLabel (pyRstrip l) = none)
    (hdat : matchPkgDate (pyRstrip l) = none)
    (hpkg : matchTagged "PACKAGE:" (pyRstrip l) = none)
    (hloc : matchTagged "LOCATION:" (pyRstrip l) = none)
    (hpre : matchPrereq (pyRstrip l) = some (p, mn, mx))
    (hmiss : List.lookup p lpps = none) :
    parseEpkgLines lpps st (l :: rest) =
      Except.ok { st with prereq := st.prereq ++ [(p, mn, mx)],
                          reject := some (pyBasename st.path ++ ": prerequisite missing: " ++ p) } ∧
    parseEpkgLines lpps st (l :: rest) = parseEpkgLines lpps st (l :: rest') := by
  have hstep : processLine lpps st l =
      Except.ok (true, { st with prereq := st.prereq ++ [(p, mn, mx)],
                                 reject := some (pyBasename st.path ++ ": prerequisite missing: " ++ p) }) := by
    simp only [processLine, hne, hcm, hlab, hdat, hpkg, hloc, hpre, hmiss,
      Bool.or_self, Bool.false_eq_true, if_false, ite_self]
  have hrun : parseEpkgLines lpps st (l :: rest) =
      Except.ok { st with prereq := st.prereq ++ [(p, mn, mx)],
                          reject := some (pyBasename st.path ++ ": prerequisite missing: " ++ p) } := by
    simp only [parseEpkgLines, hstep]
    rfl
  have hrun' : parseEpkgLines lpps st (l :: rest') =
      Except.ok { st with prereq := st.prereq ++ [(p, mn, mx)],
                          reject := some (pyBasename st.path ++ ": prerequisite missing: " ++ p) } := by
    simp only [parseEpkgLines, hstep]
    rfl
  exact ⟨hrun, hrun.trans hrun'.symm⟩

/-- Witness for C6: the missing package `q` rejects the candidate at once
and the second prerequisite line is never evaluated. -/
theorem c6_prereq_missing_stops_witness :
    parseEpkgLines [] (initEpkg "/w/e.epkg") ["q 1.0 2.0", "r 1.0 2.0"] =
      Except.ok { initEpkg "/w/e.epkg" with
                  prereq := [("q", "1.0", "2.0")],
                  reject := some "e.epkg: prerequisite missing: q" } ∧
    parseEpkgLines [] (initEpkg "/w/e.epkg") ["q 1.0 2.0", "r 1.0 2.0"] =
      parseEpkgLines [] (initEpkg "/w/e.epkg") ["q 1.0 2.0"] := by
  have h := c6_prereq_missing_stops [] (initEpkg "/w/e.epkg") "q 1.0 2.0"
    ["r 1.0 2.0"] [] "q" "1.0" "2.0" rfl rfl rfl rfl rfl rfl rfl rfl
  refine ⟨?_, h.2⟩
  rw [h.1]
  rfl

end Flrtvc


namespace Flrtvc

def prereqSat (lpps : Lpps) (t : String × String × String) : Prop :=
  ∃ lvl minlvl_i maxlvl_i,
    List.lookup t.1 lpps = some lvl ∧
    pyIntList t.2.1 = some minlvl_i ∧
    pyIntList t.2.2 = some maxlvl_i ∧
    pyListLt lvl.int minlvl_i = false ∧
    pyListLt maxlvl_i lvl.int = false

theorem processLine_pres {lpps : Lpps} {st : Epkg} {l : String} {b : Bool} {st' : Epkg}
    (h : processLine lpps st l = .ok (b, st')) :
    st'.path = st.path ∧ st'.sec_from_epoch = st.sec_from_epoch := by
  simp only [processLine] at h
  repeat' split at h
  all_goals (try exact Except.noConfusion h)
  all_goals (injection h with h1)
  all_goals (injection h1 with hb hst)
  all_goals (subst hst)
  all_goals exact ⟨rfl, rfl⟩

theorem processLine_reject_mono {lpps : Lpps} {st : Epkg} {l : String} {b : Bool} {st' : Epkg}
    (h : processLine lpps st l = .ok (b, st')) (hs : st.reject.isSome) :
    st'.reject.isSome := by
  simp only [processLine] at h
  repeat' split at h
  all_goals (try exact Except.noConfusion h)
  all_goals (injection h with h1)
  all_goals (injection h1 with hb hst)
  all_goals (subst hst)
  all_goals first | exact hs | rfl

theorem processLine_sat {lpps : Lpps} {st : Epkg} {l : String} {b : Bool} {st' : Epkg}
    (h : processLine lpps st l = .ok (b, st'))
    (hclean : st'.reject = none)
    (hsat : ∀ t ∈ st.prereq, prereqSat lpps t) :
    ∀ t ∈ st'.prereq, prereqSat lpps t := by
  simp only [processLine] at h
  repeat' split at h
  all_goals (try exact Except.noConfusion h)
  all_goals (injection h with h1)
  all_goals (injection h1 with hb hst)
  all_goals (subst hst)
  all_goals (try exact hsat)
  all_goals (try (exfalso; exact Option.noConfusion hclean))
  intro t ht
  rcases List.mem_append.mp ht with ht | ht
  · exact hsat t ht
  · rw [List.mem_singleton] at ht
    subst ht
    rename_i hrange
    have hor := Bool.or_eq_false_iff.mp (by simpa using hrange)
    exact ⟨_, _, _, by assumption, by assumption, by assumption, hor.1, hor.2⟩

end Flrtvc

namespace Flrtvc

theorem processLine_prereq_len {lpps : Lpps} {st : Epkg} {l : String} {b : Bool} {st' : Epkg}
    (h : processLine lpps st l = .ok (b, st')) :
    st.prereq.length ≤ st'.prereq.length := by
  simp only [processLine] at h
  repeat' split at h
  all_goals (try exact Except.noConfusion h)
  all_goals (injection h with h1)
  all_goals (injection h1 with hb hst)
  all_goals (subst hst)
  all_goals simp

theorem processLine_reject_of_len {lpps : Lpps} {st : Epkg} {l : String} {b : Bool} {st' : Epkg}
    (h : processLine lpps st l = .ok (b, st'))
    (hlen : st'.prereq.length = st.prereq.length) :
    st'.reject = st.reject := by
  simp only [processLine] at h
  repeat' split at h
  all_goals (try exact Except.noConfusion h)
  all_goals (injection h with h1)
  all_goals (injection h1 with hb hst)
  all_goals (subst hst)
  all_goals (try rfl)
  all_goals (exfalso; simp at hlen)

theorem parseEpkgLines_pres {lpps : Lpps} : ∀ {ls : List String} {st st' : Epkg},
    parseEpkgLines lpps st ls = .ok st' →
    st'.path = st.path ∧ st'.sec_from_epoch = st.sec_from_epoch := by
  intro ls
  induction ls with
  | nil =>
    intro st st' h
    simp only [parseEpkgLines] at h
    injection h with h
    subst h
    exact ⟨rfl, rfl⟩
  | cons l ls ih =>
    intro st st' h
    simp only [parseEpkgLines] at h
    cases hp : processLine lpps st l with
    | error e => rw [hp] at h; exact Except.noConfusion h
    | ok bs =>
      rw [hp] at h
      obtain ⟨b, s1⟩ := bs
      have hfield := processLine_pres hp
      cases b with
      | true =>
        simp only [bind, Except.bind] at h
        injection h with h
        subst h
        exact hfield
      | false =>
        simp only [bind, Except.bind] at h
        have := ih h
        exact ⟨this.1.trans hfield.1, this.2.trans hfield.2⟩

theorem parseEpkgLines_reject_mono {lpps : Lpps} : ∀ {ls : List String} {st st' : Epkg},
    parseEpkgLines lpps st ls = .ok st' → st.reject.isSome → st'.reject.isSome := by
  intro ls
  induction ls with
  | nil =>
    intro st st' h hs
    simp only [parseEpkgLines] at h
    injection h with h
    subst h
    exact hs
  | cons l ls ih =>
    intro st st' h hs
    simp only [parseEpkgLines] at h
    cases hp : processLine lpps st l with
    | error e => rw [hp] at h; exact Except.noConfusion h
    | ok bs =>
      rw [hp] at h
      obtain ⟨b, s1⟩ := bs
      have hmono := processLine_reject_mono hp hs
      cases b with
      | true =>
        simp only [bind, Except.bind] at h
        injection h with h
        subst h
        exact hmono
      | false =>
        simp only [bind, Except.bind] at h
        exact ih h hmono

theorem parseEpkgLines_sat {lpps : Lpps} : ∀ {ls : List String} {st st' : Epkg},
    parseEpkgLines lpps st ls = .ok st' → st'.reject = none →
    (∀ t ∈ st.prereq, prereqSat lpps t) → ∀ t ∈ st'.prereq, prereqSat lpps t := by
  intro ls
  induction ls with
  | nil =>
    intro st st' h _ hs
    simp only [parseEpkgLines] at h
    injection h with h
    subst h
    exact hs
  | cons l ls ih =>
    intro st st' h hc hs
    simp only [parseEpkgLines] at h
    cases hp : processLine lpps st l with
    | error e => rw [hp] at h; exact Except.noConfusion h
    | ok bs =>
      rw [hp] at h
      obtain ⟨b, s1⟩ := bs
      cases b with
      | true =>
        simp only [bind, Except.bind] at h
        injection h with h
        subst h
        exact processLine_sat hp hc hs
      | false =>
        simp only [bind, Except.bind] at h
        have hs1 : s1.reject = none := by
          cases hr : s1.reject with
          | none => rfl
          | some r =>
            have hms := parseEpkgLines_reject_mono h (by rw [hr]; rfl)
            rw [hc] at hms
            exact Bool.noConfusion hms
        exact ih h hc (processLine_sat hp hs1 hs)

theorem parseEpkgLines_prereq_len {lpps : Lpps} : ∀ {ls : List String} {st st' : Epkg},
    parseEpkgLines lpps st ls = .ok st' → st.prereq.length ≤ st'.prereq.length := by
  intro ls
  induction ls with
  | nil =>
    intro st st' h
    simp only [parseEpkgLines] at h
    injection h with h
    subst h
    exact Nat.le_refl _
  | cons l ls ih =>
    intro st st' h
    simp only [parseEpkgLines] at h
    cases hp : processLine lpps st l with
    | error e => rw [hp] at h; exact Except.noConfusion h
    | ok bs =>
      rw [hp] at h
      obtain ⟨b, s1⟩ := bs
      have hstep := processLine_prereq_len hp
      cases b with
      | true =>
        simp only [bind, Except.bind] at h
        injection h with h
        subst h
        exact hstep
      | false =>
        simp only [bind, Except.bind] at h
        exact Nat.le_trans hstep (ih h)

theorem parseEpkgLines_no_prereq_reject {lpps : Lpps} : ∀ {ls : List String} {st st' : Epkg},
    parseEpkgLines lpps st ls = .ok st' → st'.prereq.length = st.prereq.length →
    st'.reject = st.reject := by
  intro ls
  induction ls with
  | nil =>
    intro st st' h _
    simp only [parseEpkgLines] at h
    injection h with h
    subst h
    rfl
  | cons l ls ih =>
    intro st st' h hlen
    simp only [parseEpkgLines] at h
    cases hp : processLine lpps st l with
    | error e => rw [hp] at h; exact Except.noConfusion h
    | ok bs =>
      rw [hp] at h
      obtain ⟨b, s1⟩ := bs
      cases b with
      | true =>
        simp only [bind, Except.bind] at h
        injection h with h
        subst h
        exact processLine_reject_of_len hp hlen
      | false =>
        simp only [bind, Except.bind] at h
        have h1 := processLine_prereq_len hp
        have h2 : s1.prereq.length ≤ st'.prereq.length := parseEpkgLines_prereq_len h
        have hs1len : s1.prereq.length = st.prereq.length := by omega
        have := ih h (by omega)
        rw [this]
        exact processLine_reject_of_len hp hs1len

end Flrtvc

namespace Flrtvc

theorem lockScanGo_eq_update (locked : List (String × String)) :
    ∀ (fs : List String) (st : Epkg),
      (lockScanGo locked st fs).1 = { st with reject := (lockScanGo locked st fs).1.reject } := by
  intro fs
  induction fs with
  | nil => intro st; rfl
  | cons f fs ih =>
    intro st
    unfold lockScanGo
    cases h : List.lookup f locked with
    | none =>
      simp only [h]
      exact ih st
    | some lbl =>
      simp only [h]
      have := ih { st with reject := some (pyBasename st.path ++ ": installed efix " ++ lbl ++
        " is locking " ++ f) }
      exact this

theorem lockScanGo_reject_some (locked : List (String × String)) :
    ∀ (fs : List String) (st : Epkg), st.reject.isSome →
      ((lockScanGo locked st fs).1.reject).isSome := by
  intro fs
  induction fs with
  | nil => intro st hs; exact hs
  | cons f fs ih =>
    intro st hs
    unfold lockScanGo
    cases h : List.lookup f locked with
    | none =>
      simp only [h]
      exact ih st hs
    | some lbl =>
      simp only [h]
      exact ih _ rfl

theorem lockScanGo_clean (locked : List (String × String)) :
    ∀ (fs : List String) (st : Epkg),
      (lockScanGo locked st fs).1.reject = none →
      st.reject = none ∧ ∀ f ∈ fs, List.lookup f locked = none := by
  intro fs
  induction fs with
  | nil =>
    intro st h
    exact ⟨h, by intro f hf; cases hf⟩
  | cons f fs ih =>
    intro st h
    unfold lockScanGo at h
    cases hl : List.lookup f locked with
    | none =>
      simp only [hl] at h
      have := ih st h
      refine ⟨this.1, ?_⟩
      intro g hg
      rcases List.mem_cons.mp hg with rfl | hg
      · exact hl
      · exact this.2 g hg
    | some lbl =>
      simp only [hl] at h
      exfalso
      have := lockScanGo_reject_some locked fs { st with reject := some (pyBasename st.path ++
        ": installed efix " ++ lbl ++ " is locking " ++ f) } rfl
      rw [h] at this
      exact Bool.noConfusion this

/-- Characterization of a surviving candidate: its reject field is unset,
none of its files is in the `locked_files` table, and every parsed
prerequisite passed the inline check. -/
theorem processOne_some {lpps : Lpps} {locked : List (String × String)} {inp : EpkgInput}
    {rs : List String} {e : Epkg}
    (h : processOne lpps locked inp = .ok (rs, some e)) :
    e.path = inp.path ∧ e.reject = none ∧
    (∀ f ∈ e.files, List.lookup f locked = none) ∧
    (∀ t ∈ e.prereq, prereqSat lpps t) ∧ rs = [] := by
  simp only [processOne] at h
  cases hp : parseEpkgLines lpps (initEpkg inp.path) (pySplitlines inp.stdout) with
  | error err => rw [hp] at h; exact Except.noConfusion h
  | ok st =>
    rw [hp] at h
    simp only [bind, Except.bind] at h
    cases hr : st.reject with
    | some r => rw [hr] at h; simp at h
    | none =>
      rw [hr] at h
      rcases hls : lockScan locked st with ⟨st2, rejs⟩
      rw [hls] at h
      dsimp only at h
      have hst2 : st2 = (lockScanGo locked st st.files).1 := by
        have heq : lockScan locked st = lockScanGo locked st st.files := rfl
        rw [heq] at hls
        rw [hls]
      have hupd := lockScanGo_eq_update locked st.files st
      cases hr2 : st2.reject with
      | some r2 => rw [hr2] at h; simp at h
      | none =>
        rw [hr2] at h
        have hpath2 : st2.path = st.path := by rw [hst2, hupd]
        have hfiles2 : st2.files = st.files := by rw [hst2, hupd]
        have hprereq2 : st2.prereq = st.prereq := by rw [hst2, hupd]
        have hdate2 : st2.pkg_date = st.pkg_date := by rw [hst2, hupd]
        have hclean := lockScanGo_clean locked st.files st (by rw [← hst2]; exact hr2)
        have hsat : ∀ t ∈ st.prereq, prereqSat lpps t :=
          parseEpkgLines_sat hp hr (by intro t ht; cases ht)
        have hpres := parseEpkgLines_pres hp
        have hpath : st.path = inp.path := hpres.1
        cases hd : st2.pkg_date with
        | some d =>
          rw [hd] at h
          injection h with h
          injection h with h1 h2
          injection h2 with h2
          subst h2
          dsimp only
          refine ⟨hpath2.trans hpath, rfl, ?_, ?_, h1.symm⟩
          · intro f hf
            rw [hfiles2] at hf
            exact hclean.2 f hf
          · intro t ht
            rw [hprereq2] at ht
            exact hsat t ht
        | none =>
          rw [hd] at h
          injection h with h
          injection h with h1 h2
          injection h2 with h2
          subst h2
          refine ⟨hpath2.trans hpath, hr2, ?_, ?_, h1.symm⟩
          · intro f hf
            rw [hfiles2] at hf
            exact hclean.2 f hf
          · intro t ht
            rw [hprereq2] at ht
            exact hsat t ht

end Flrtvc

namespace Flrtvc

theorem processOne_sec {lpps : Lpps} {locked : List (String × String)} {inp : EpkgInput}
    {rs : List String} {e : Epkg}
    (h : processOne lpps locked inp = .ok (rs, some e)) :
    (e.pkg_date = none → e.sec_from_epoch = -1) ∧
    (∀ d, e.pkg_date = some d → e.sec_from_epoch = (to_utc_epoch d).1) := by
  simp only [processOne] at h
  cases hp : parseEpkgLines lpps (initEpkg inp.path) (pySplitlines inp.stdout) with
  | error err => rw [hp] at h; exact Except.noConfusion h
  | ok st =>
    rw [hp] at h
    simp only [bind, Except.bind] at h
    cases hr : st.reject with
    | some r => rw [hr] at h; simp at h
    | none =>
      rw [hr] at h
      rcases hls : lockScan locked st with ⟨st2, rejs⟩
      rw [hls] at h
      dsimp only at h
      have hst2 : st2 = (lockScanGo locked st st.files).1 := by
        have heq : lockScan locked st = lockScanGo locked st st.files := rfl
        rw [heq] at hls
        rw [hls]
      have hupd := lockScanGo_eq_update locked st.files st
      cases hr2 : st2.reject with
      | some r2 => rw [hr2] at h; simp at h
      | none =>
        rw [hr2] at h
        have hsec2 : st2.sec_from_epoch = st.sec_from_epoch := by rw [hst2, hupd]
        have hpres := parseEpkgLines_pres hp
        cases hd : st2.pkg_date with
        | some d =>
          rw [hd] at h
          injection h with h
          injection h with h1 h2
          injection h2 with h2
          subst h2
          dsimp only
          exact ⟨fun hcon => Option.noConfusion hcon,
                 fun d' hd' => by injection hd' with hd'; rw [hd']⟩
        | none =>
          rw [hd] at h
          injection h with h
          injection h with h1 h2
          injection h2 with h2
          subst h2
          refine ⟨fun _ => ?_, fun d' hd' => ?_⟩
          · rw [hsec2, hpres.2]
            rfl
          · rw [hd] at hd'
            exact Option.noConfusion hd'

theorem mem_insertReplace {α : Type} {k : String} {v : α} : ∀ {m : List (String × α)}
    {pe : String × α}, pe ∈ insertReplace m k v → pe ∈ m ∨ pe = (k, v) := by
  intro m
  induction m with
  | nil =>
    intro pe h
    simp only [insertReplace] at h
    rcases List.mem_singleton.mp h with rfl
    exact Or.inr rfl
  | cons kv rest ih =>
    intro pe h
    simp only [insertReplace] at h
    split at h
    · rcases List.mem_cons.mp h with rfl | h
      · exact Or.inr rfl
      · exact Or.inl (List.mem_cons_of_mem _ h)
    · rcases List.mem_cons.mp h with rfl | h
      · exact Or.inl (List.mem_cons_self _ _)
      · rcases ih h with h | h
        · exact Or.inl (List.mem_cons_of_mem _ h)
        · exact Or.inr h

/-- The invariant carried by every entry of the `epkgs_info` dict. -/
def survivorProp (lpps : Lpps) (locked : List (String × String)) (pe : String × Epkg) : Prop :=
  pe.1 = pe.2.path ∧ pe.2.reject = none ∧
  (∀ f ∈ pe.2.files, List.lookup f locked = none) ∧
  (∀ t ∈ pe.2.prereq, prereqSat lpps t)

theorem checkEpkgsGo_inv {lpps : Lpps} {locked : List (String × String)} :
    ∀ {inputs : List EpkgInput} {infos : List (String × Epkg)} {rejs : List String}
      {infos' : List (String × Epkg)} {rejs' : List String},
      checkEpkgsGo lpps locked inputs infos rejs = .ok (infos', rejs') →
      (∀ pe ∈ infos, survivorProp lpps locked pe) →
      ∀ pe ∈ infos', survivorProp lpps locked pe := by
  intro inputs
  induction inputs with
  | nil =>
    intro infos rejs infos' rejs' h hinv
    simp only [checkEpkgsGo] at h
    injection h with h
    injection h with h1 h2
    subst h1
    exact hinv
  | cons inp rest ih =>
    intro infos rejs infos' rejs' h hinv
    simp only [checkEpkgsGo] at h
    cases hp : processOne lpps locked inp with
    | error err => rw [hp] at h; exact Except.noConfusion h
    | ok ro =>
      rw [hp] at h
      simp only [bind, Except.bind] at h
      obtain ⟨rs, oe⟩ := ro
      cases oe with
      | none => exact ih h hinv
      | some e =>
        refine ih h ?_
        intro pe hpe
        rcases mem_insertReplace hpe with hpe | rfl
        · exact hinv pe hpe
        · have hs := processOne_some hp
          exact ⟨hs.1.symm ▸ rfl, hs.2.1, hs.2.2.1, hs.2.2.2.1⟩

end Flrtvc

namespace Flrtvc

theorem lookup_append_none {α : Type} {f : String} {l1 l2 : List (String × α)}
    (h : List.lookup f (l1 ++ l2) = none) :
    List.lookup f l1 = none ∧ List.lookup f l2 = none := by
  induction l1 with
  | nil => exact ⟨rfl, h⟩
  | cons kv rest ih =>
    obtain ⟨k, v⟩ := kv
    simp only [List.cons_append, List.lookup] at h ⊢
    cases hfk : (f == k) with
    | true => rw [hfk] at h; exact Option.noConfusion h
    | false => rw [hfk] at h; exact ih h

theorem lockedFilesOf_inner_none {f : String} {lbl : String} : ∀ {fs : List String}
    {acc : List (String × String)},
    List.lookup f (fs.foldl (fun acc2 g =>
      if (List.lookup g acc2).isSome then acc2 else acc2 ++ [(g, lbl)]) acc) = none →
    List.lookup f acc = none ∧ f ∉ fs := by
  intro fs
  induction fs with
  | nil =>
    intro acc h
    exact ⟨h, by intro hf; cases hf⟩
  | cons g fs ih =>
    intro acc h
    simp only [List.foldl_cons] at h
    have hih := ih h
    by_cases hg : (List.lookup g acc).isSome
    · rw [if_pos hg] at hih
      refine ⟨hih.1, ?_⟩
      intro hf
      rcases List.mem_cons.mp hf with rfl | hf
      · rw [hih.1] at hg
        exact Bool.noConfusion hg
      · exact hih.2 hf
    · rw [if_neg hg] at hih
      have happ := lookup_append_none hih.1
      refine ⟨happ.1, ?_⟩
      intro hf
      rcases List.mem_cons.mp hf with rfl | hf
      · have : List.lookup f [(f, lbl)] = none := happ.2
        simp [List.lookup] at this
      · exact hih.2 hf

theorem lookup_lockedFilesOf_none {f : String} : ∀ {efixes : List (String × EfixInfo)}
    {acc : List (String × String)},
    List.lookup f (efixes.foldl (fun acc e =>
      e.2.files.foldl (fun acc2 g =>
        if (List.lookup g acc2).isSome then acc2 else acc2 ++ [(g, e.1)]) acc) acc) = none →
    List.lookup f acc = none ∧ ∀ le ∈ efixes, f ∉ le.2.files := by
  intro efixes
  induction efixes with
  | nil =>
    intro acc h
    exact ⟨h, by intro le hle; cases hle⟩
  | cons le rest ih =>
    intro acc h
    simp only [List.foldl_cons] at h
    have hih := ih h
    have hinner := lockedFilesOf_inner_none hih.1
    refine ⟨hinner.1, ?_⟩
    intro le' hle'
    rcases List.mem_cons.mp hle' with rfl | hle'
    · exact hinner.2
    · exact hih.2 le' hle'

theorem pyIsDisjoint_iff {a b : List String} :
    pyIsDisjoint a b = true ↔ ∀ x ∈ a, x ∉ b := by
  simp only [pyIsDisjoint, List.all_eq_true]
  constructor
  · intro h x hx hxb
    have hthis := h x hx
    have hcon : b.contains x = true := List.elem_iff.mpr hxb
    rw [hcon] at hthis
    exact Bool.noConfusion hthis
  · intro h x hx
    cases hc : b.contains x with
    | false => rfl
    | true => exact absurd (List.elem_iff.mp hc) (h x hx)

end Flrtvc

namespace Flrtvc

theorem mem_insertDescBy {α : Type} (key : α → Int) (x : α) :
    ∀ {l : List α} {y : α}, y ∈ insertDescBy key x l ↔ y = x ∨ y ∈ l := by
  intro l
  induction l with
  | nil =>
    intro y
    simp [insertDescBy]
  | cons z zs ih =>
    intro y
    simp only [insertDescBy]
    split
    · constructor
      · intro h
        rcases List.mem_cons.mp h with rfl | h
        · exact Or.inl rfl
        · exact Or.inr h
      · intro h
        rcases h with rfl | h
        · exact List.mem_cons_self _ _
        · exact List.mem_cons_of_mem _ h
    · constructor
      · intro h
        rcases List.mem_cons.mp h with rfl | h
        · exact Or.inr (List.mem_cons_self _ _)
        · rcases ih.mp h with rfl | h
          · exact Or.inl rfl
          · exact Or.inr (List.mem_cons_of_mem _ h)
      · intro h
        rcases h with rfl | h
        · exact List.mem_cons_of_mem _ (ih.mpr (Or.inl rfl))
        · rcases List.mem_cons.mp h with rfl | h
          · exact List.mem_cons_self _ _
          · exact List.mem_cons_of_mem _ (ih.mpr (Or.inr h))

theorem self_mem_insertDescBy {α : Type} (key : α → Int) (x : α) (l : List α) :
    x ∈ insertDescBy key x l :=
  (mem_insertDescBy key x).mpr (Or.inl rfl)

theorem sublist_insertDescBy {α : Type} (key : α → Int) (x : α) :
    ∀ (l : List α), List.Sublist l (insertDescBy key x l) := by
  intro l
  induction l with
  | nil => simp [insertDescBy]
  | cons z zs ih =>
    simp only [insertDescBy]
    split
    · exact List.sublist_cons_self _ _
    · exact ih.cons₂ z

theorem pairwise_insertDescBy {α : Type} (key : α → Int) (x : α) :
    ∀ {l : List α}, l.Pairwise (fun a b => key b ≤ key a) →
      (insertDescBy key x l).Pairwise (fun a b => key b ≤ key a) := by
  intro l
  induction l with
  | nil =>
    intro _
    simp [insertDescBy]
  | cons z zs ih =>
    intro hp
    rcases List.pairwise_cons.mp hp with ⟨hz, hzs⟩
    simp only [insertDescBy]
    split
    · rename_i hlt
      refine List.pairwise_cons.mpr ⟨?_, hp⟩
      intro b hb
      rcases List.mem_cons.mp hb with rfl | hb
      · exact Int.le_of_lt hlt
      · exact Int.le_trans (hz b hb) (Int.le_of_lt hlt)
    · rename_i hge
      refine List.pairwise_cons.mpr ⟨?_, ih hzs⟩
      intro b hb
      rcases (mem_insertDescBy key x).mp hb with rfl | hb
      · exact Int.not_lt.mp hge
      · exact hz b hb

theorem pairwise_foldl_insertDescBy {α : Type} (key : α → Int) :
    ∀ (l : List α) (acc : List α), acc.Pairwise (fun a b => key b ≤ key a) →
      (l.foldl (fun acc x => insertDescBy key x acc) acc).Pairwise (fun a b => key b ≤ key a) := by
  intro l
  induction l with
  | nil => intro acc h; exact h
  | cons x xs ih =>
    intro acc h
    simp only [List.foldl_cons]
    exact ih _ (pairwise_insertDescBy key x h)

theorem pairwise_sortDescBy {α : Type} (key : α → Int) (l : List α) :
    (sortDescBy key l).Pairwise (fun a b => key b ≤ key a) :=
  pairwise_foldl_insertDescBy key l [] (List.Pairwise.nil)

theorem mem_foldl_insertDescBy {α : Type} (key : α → Int) :
    ∀ (l : List α) (acc : List α) (y : α),
      y ∈ l.foldl (fun acc x => insertDescBy key x acc) acc ↔ y ∈ acc ∨ y ∈ l := by
  intro l
  induction l with
  | nil =>
    intro acc y
    simp
  | cons x xs ih =>
    intro acc y
    simp only [List.foldl_cons]
    rw [ih]
    rw [mem_insertDescBy]
    constructor
    · rintro ((rfl | h) | h)
      · exact Or.inr (List.mem_cons_self _ _)
      · exact Or.inl h
      · exact Or.inr (List.mem_cons_of_mem _ h)
    · rintro (h | h)
      · exact Or.inl (Or.inr h)
      · rcases List.mem_cons.mp h with rfl | h
        · exact Or.inl (Or.inl rfl)
        · exact Or.inr h

theorem mem_sortDescBy {α : Type} (key : α → Int) (l : List α) (y : α) :
    y ∈ sortDescBy key l ↔ y ∈ l := by
  rw [sortDescBy, mem_foldl_insertDescBy]
  simp

end Flrtvc

namespace Flrtvc

theorem pair_sublist_insertDescBy {α : Type} (key : α → Int) (x : α) {a b : α} :
    ∀ {l : List α}, List.Sublist [a, b] l → List.Sublist [a, b] (insertDescBy key x l) :=
  fun h => h.trans (sublist_insertDescBy key x _)

theorem stab_insertDescBy {α : Type} (key : α → Int) {x a : α} :
    ∀ {l : List α}, a ∈ l → l.Pairwise (fun a b => key b ≤ key a) → key x ≤ key a →
      List.Sublist [a, x] (insertDescBy key x l) := by
  intro l
  induction l with
  | nil => intro ha; cases ha
  | cons z zs ih =>
    intro ha hp hk
    rcases List.pairwise_cons.mp hp with ⟨hz, hzs⟩
    simp only [insertDescBy]
    split
    · rename_i hlt
      exfalso
      rcases List.mem_cons.mp ha with rfl | ha
      · exact absurd (Int.lt_of_le_of_lt hk hlt) (Int.lt_irrefl _)
      · exact absurd (Int.lt_of_le_of_lt (Int.le_trans hk (hz a ha)) hlt) (Int.lt_irrefl _)
    · rcases List.mem_cons.mp ha with rfl | ha
      · exact (List.singleton_sublist.mpr (self_mem_insertDescBy key x zs)).cons₂ a
      · exact (ih ha hzs hk).cons z

theorem stab_foldl_of_pair {α : Type} (key : α → Int) {a b : α} :
    ∀ (l : List α) {acc : List α}, List.Sublist [a, b] acc →
      List.Sublist [a, b] (l.foldl (fun acc x => insertDescBy key x acc) acc) := by
  intro l
  induction l with
  | nil => intro acc h; exact h
  | cons x xs ih =>
    intro acc h
    simp only [List.foldl_cons]
    exact ih (pair_sublist_insertDescBy key x h)

theorem stab_foldl_of_mem {α : Type} (key : α → Int) {a b : α} (hk : key b ≤ key a) :
    ∀ (l1 l2 : List α) {acc : List α}, a ∈ acc →
      acc.Pairwise (fun a b => key b ≤ key a) →
      List.Sublist [a, b]
        ((l1 ++ b :: l2).foldl (fun acc x => insertDescBy key x acc) acc) := by
  intro l1
  induction l1 with
  | nil =>
    intro l2 acc ha hp
    simp only [List.nil_append, List.foldl_cons]
    exact stab_foldl_of_pair key l2 (stab_insertDescBy key ha hp hk)
  | cons x xs ih =>
    intro l2 acc ha hp
    simp only [List.cons_append, List.foldl_cons]
    exact ih l2 ((mem_insertDescBy key x).mpr (Or.inr ha)) (pairwise_insertDescBy key x hp)

theorem stab_foldl_full {α : Type} (key : α → Int) {a b : α} (hk : key b ≤ key a) :
    ∀ (l0 : List α) (l1 l2 : List α) {acc : List α},
      acc.Pairwise (fun a b => key b ≤ key a) →
      List.Sublist [a, b]
        ((l0 ++ a :: l1 ++ b :: l2).foldl (fun acc x => insertDescBy key x acc) acc) := by
  intro l0
  induction l0 with
  | nil =>
    intro l1 l2 acc hp
    simp only [List.nil_append, List.foldl_cons]
    exact stab_foldl_of_mem key hk l1 l2 (self_mem_insertDescBy key a acc)
      (pairwise_insertDescBy key a hp)
  | cons x xs ih =>
    intro l1 l2 acc hp
    simp only [List.cons_append, List.foldl_cons]
    exact ih l1 l2 (pairwise_insertDescBy key x hp)

/-- Stability of the descending sort: an element packaged no later than an
earlier-listed element stays after it, so ties keep their input order. -/
theorem sortDescBy_stable {α : Type} (key : α → Int) {a b : α} (hk : key b ≤ key a)
    (l0 l1 l2 : List α) :
    List.Sublist [a, b] (sortDescBy key (l0 ++ a :: l1 ++ b :: l2)) :=
  stab_foldl_full key hk l0 l1 l2 List.Pairwise.nil

end Flrtvc

namespace Flrtvc

theorem greedyScan_sublist : ∀ (l : List (String × Epkg)) (locks : List String),
    List.Sublist (greedyScan locks l).1 l := by
  intro l
  induction l with
  | nil => intro locks; exact List.Sublist.refl _
  | cons pe rest ih =>
    intro locks
    obtain ⟨p, e⟩ := pe
    simp only [greedyScan]
    split
    · exact (ih (locks ++ e.files)).cons₂ (p, e)
    · exact (ih locks).cons (p, e)

theorem greedyScan_clean : ∀ (l : List (String × Epkg)) (locks : List String),
    (∀ pe ∈ (greedyScan locks l).1, ∀ f ∈ pe.2.files, f ∉ locks) ∧
    (greedyScan locks l).1.Pairwise (fun a b => ∀ f ∈ a.2.files, f ∉ b.2.files) := by
  intro l
  induction l with
  | nil =>
    intro locks
    exact ⟨(fun pe hpe => absurd hpe (List.not_mem_nil pe)), List.Pairwise.nil⟩
  | cons pe rest ih =>
    intro locks
    obtain ⟨p, e⟩ := pe
    simp only [greedyScan]
    split
    · rename_i hd
      have hdis := pyIsDisjoint_iff.mp hd
      have ihc := ih (locks ++ e.files)
      constructor
      · intro pe hpe
        rcases List.mem_cons.mp hpe with rfl | hpe
        · exact hdis
        · intro f hf hflocks
          exact ihc.1 pe hpe f hf (List.mem_append.mpr (Or.inl hflocks))
      · refine List.pairwise_cons.mpr ⟨?_, ihc.2⟩
        intro b hb f hf hfb
        exact ihc.1 b hb f hfb (List.mem_append.mpr (Or.inr hf))
    · exact ih locks

theorem greedyScan_accept {c : String × Epkg} : ∀ (pre : List (String × Epkg))
    (locks : List String) (suf : List (String × Epkg)),
    (∀ f ∈ c.2.files, f ∉ locks) →
    (∀ d ∈ pre, d ∈ (greedyScan locks (pre ++ c :: suf)).1 →
      ∀ f ∈ c.2.files, f ∉ d.2.files) →
    c ∈ (greedyScan locks (pre ++ c :: suf)).1 := by
  intro pre
  induction pre with
  | nil =>
    intro locks suf hlocks _
    obtain ⟨p, e⟩ := c
    simp only [List.nil_append, greedyScan]
    rw [if_pos (pyIsDisjoint_iff.mpr hlocks)]
    exact List.mem_cons_self _ _
  | cons d pre ih =>
    intro locks suf hlocks hdis
    obtain ⟨q, de⟩ := d
    simp only [List.cons_append, greedyScan]
    split
    · rename_i hd
      have hcd : ∀ f ∈ c.2.files, f ∉ de.files := by
        have hmem : (q, de) ∈ (greedyScan locks ((q, de) :: (pre ++ c :: suf))).1 := by
          simp only [greedyScan]
          rw [if_pos hd]
          exact List.mem_cons_self _ _
        exact hdis (q, de) (List.mem_cons_self _ _) hmem
      have hlocks' : ∀ f ∈ c.2.files, f ∉ locks ++ de.files := by
        intro f hf hfl
        rcases List.mem_append.mp hfl with hfl | hfl
        · exact hlocks f hf hfl
        · exact hcd f hf hfl
      refine List.mem_cons_of_mem _ (ih (locks ++ de.files) suf hlocks' ?_)
      intro d' hd' hd'mem
      refine hdis d' (List.mem_cons_of_mem _ hd') ?_
      simp only [greedyScan]
      rw [if_pos hd]
      exact List.mem_cons_of_mem _ hd'mem
    · rename_i hd
      refine ih locks suf hlocks ?_
      intro d' hd' hd'mem
      refine hdis d' (List.mem_cons_of_mem _ hd') ?_
      simp only [greedyScan]
      rw [if_neg hd]
      exact hd'mem

end Flrtvc

namespace Flrtvc

theorem pyStrLt_asymm : ∀ {a b : List Char}, pyStrLt a b = true → pyStrLt b a = false := by
  intro a
  induction a with
  | nil =>
    intro b h
    cases b with
    | nil => exact Bool.noConfusion h
    | cons c cs => rfl
  | cons c cs ih =>
    intro b h
    cases b with
    | nil => exact Bool.noConfusion h
    | cons d ds =>
      simp only [pyStrLt] at h ⊢
      by_cases h1 : c.toNat < d.toNat
      · rw [if_neg (Nat.lt_asymm h1), if_pos h1]
      · rw [if_neg h1] at h
        by_cases h2 : d.toNat < c.toNat
        · rw [if_pos h2] at h
          exact Bool.noConfusion h
        · rw [if_neg h2] at h
          rw [if_neg h2, if_neg h1]
          exact ih h

theorem pyStrLt_trans : ∀ {a b c : List Char}, pyStrLt a b = true → pyStrLt b c = true →
    pyStrLt a c = true := by
  intro a
  induction a with
  | nil =>
    intro b c h1 h2
    cases c with
    | nil =>
      cases b with
      | nil => exact Bool.noConfusion h1
      | cons d ds => exact Bool.noConfusion h2
    | cons e es => rfl
  | cons d ds ih =>
    intro b c h1 h2
    cases b with
    | nil => exact Bool.noConfusion h1
    | cons e es =>
      cases c with
      | nil => exact Bool.noConfusion h2
      | cons g gs =>
        simp only [pyStrLt] at h1 h2 ⊢
        by_cases hde : d.toNat < e.toNat
        · by_cases heg : e.toNat < g.toNat
          · rw [if_pos (Nat.lt_trans hde heg)]
          · rw [if_neg heg] at h2
            by_cases hge : g.toNat < e.toNat
            · rw [if_pos hge] at h2
              exact Bool.noConfusion h2
            · have : e.toNat = g.toNat := Nat.le_antisymm (Nat.le_of_not_lt hge) (Nat.le_of_not_lt heg)
              rw [if_pos (this ▸ hde)]
        · rw [if_neg hde] at h1
          by_cases hed : e.toNat < d.toNat
          · rw [if_pos hed] at h1
            exact Bool.noConfusion h1
          · rw [if_neg hed] at h1
            have hde' : d.toNat = e.toNat :=
              Nat.le_antisymm (Nat.le_of_not_lt hed) (Nat.le_of_not_lt hde)
            by_cases heg : e.toNat < g.toNat
            · rw [if_pos (hde' ▸ heg)]
            · rw [if_neg heg] at h2
              by_cases hge : g.toNat < e.toNat
              · rw [if_pos hge] at h2
                exact Bool.noConfusion h2
              · rw [if_neg hge] at h2
                rw [if_neg (hde' ▸ heg), if_neg (hde' ▸ hge)]
                exact ih h1 h2

theorem mem_insertAscStr {x : String} : ∀ {l : List String} {y : String},
    y ∈ insertAscStr x l ↔ y = x ∨ y ∈ l := by
  intro l
  induction l with
  | nil =>
    intro y
    simp [insertAscStr]
  | cons z zs ih =>
    intro y
    simp only [insertAscStr]
    split
    · constructor
      · intro h
        rcases List.mem_cons.mp h with rfl | h
        · exact Or.inl rfl
        · exact Or.inr h
      · intro h
        rcases h with rfl | h
        · exact List.mem_cons_self _ _
        · exact List.mem_cons_of_mem _ h
    · constructor
      · intro h
        rcases List.mem_cons.mp h with rfl | h
        · exact Or.inr (List.mem_cons_self _ _)
        · rcases ih.mp h with rfl | h
          · exact Or.inl rfl
          · exact Or.inr (List.mem_cons_of_mem _ h)
      · intro h
        rcases h with rfl | h
        · exact List.mem_cons_of_mem _ (ih.mpr (Or.inl rfl))
        · rcases List.mem_cons.mp h with rfl | h
          · exact List.mem_cons_self _ _
          · exact List.mem_cons_of_mem _ (ih.mpr (Or.inr h))

theorem pairwise_insertAscStr (x : String) :
    ∀ {l : List String}, l.Pairwise (fun a b => pyStrLt b.toList a.toList = false) →
      (insertAscStr x l).Pairwise (fun a b => pyStrLt b.toList a.toList = false) := by
  intro l
  induction l with
  | nil =>
    intro _
    simp [insertAscStr]
  | cons y ys ih =>
    intro hp
    rcases List.pairwise_cons.mp hp with ⟨hy, hys⟩
    simp only [insertAscStr]
    split
    · rename_i hlt
      refine List.pairwise_cons.mpr ⟨?_, hp⟩
      intro b hb
      rcases List.mem_cons.mp hb with rfl | hb
      · exact pyStrLt_asymm hlt
      · cases hc : pyStrLt b.toList x.toList with
        | false => rfl
        | true => exact absurd (hy b hb) (by rw [pyStrLt_trans hc hlt]; exact Bool.noConfusion)
    · rename_i hge
      refine List.pairwise_cons.mpr ⟨?_, ih hys⟩
      intro b hb
      rcases mem_insertAscStr.mp hb with rfl | hb
      · exact Bool.of_not_eq_true hge
      · exact hy b hb

theorem pairwise_sortAscStr (l : List String) :
    (sortAscStr l).Pairwise (fun a b => pyStrLt b.toList a.toList = false) := by
  rw [sortAscStr]
  have aux : ∀ (l : List String) (acc : List String),
      acc.Pairwise (fun a b => pyStrLt b.toList a.toList = false) →
      (l.foldl (fun acc x => insertAscStr x acc) acc).Pairwise
        (fun a b => pyStrLt b.toList a.toList = false) := by
    intro l
    induction l with
    | nil => intro acc h; exact h
    | cons x xs ih =>
      intro acc h
      simp only [List.foldl_cons]
      exact ih _ (pairwise_insertAscStr x h)
  exact aux l [] List.Pairwise.nil

end Flrtvc

namespace Flrtvc

theorem check_epkgs_unfold {epkg_list : List EpkgInput} {lpps : Lpps}
    {efixes : List (String × EfixInfo)} {acc rej : List String}
    (h : check_epkgs epkg_list lpps efixes = .ok (acc, rej)) :
    ∃ infos rejs,
      checkEpkgsGo lpps (lockedFilesOf efixes) epkg_list [] [] = .ok (infos, rejs) ∧
      acc = (greedyScan [] (sortDescBy secKey infos)).1.map Prod.fst ∧
      rej = sortAscStr (rejs ++ (greedyScan [] (sortDescBy secKey infos)).2) ∧
      acceptedEpkgs epkg_list lpps efixes =
        .ok ((greedyScan [] (sortDescBy secKey infos)).1.map Prod.snd) := by
  simp only [check_epkgs] at h
  cases hgo : checkEpkgsGo lpps (lockedFilesOf efixes) epkg_list [] [] with
  | error e => rw [hgo] at h; exact Except.noConfusion h
  | ok ir =>
    rw [hgo] at h
    obtain ⟨infos, rejs⟩ := ir
    simp only [bind, Except.bind] at h
    injection h with h
    injection h with h1 h2
    refine ⟨infos, rejs, rfl, h1.symm, h2.symm, ?_⟩
    simp only [acceptedEpkgs]
    rw [hgo]
    simp only [bind, Except.bind]

theorem lockScanGo_no_conflict (locked : List (String × String)) :
    ∀ (fs : List String) (st : Epkg), (∀ f ∈ fs, List.lookup f locked = none) →
      lockScanGo locked st fs = (st, []) := by
  intro fs
  induction fs with
  | nil => intro st _; rfl
  | cons f fs ih =>
    intro st hnone
    unfold lockScanGo
    rw [hnone f (List.mem_cons_self _ _)]
    exact ih st (fun g hg => hnone g (List.mem_cons_of_mem _ hg))

/-- A candidate with no parsed prerequisites and no file locked by an
installed efix survives the per-candidate phase un-rejected. -/
theorem processOne_keeps {lpps : Lpps} {locked : List (String × String)} {inp : EpkgInput}
    {st : Epkg}
    (hparse : parseEpkgLines lpps (initEpkg inp.path) (pySplitlines inp.stdout) = .ok st)
    (hnopre : st.prereq = [])
    (hnolock : ∀ f ∈ st.files, List.lookup f locked = none) :
    ∃ e, processOne lpps locked inp = .ok ([], some e) ∧
      e.files = st.files ∧ e.path = st.path ∧ e.prereq = [] := by
  have hrej : st.reject = none := by
    have := parseEpkgLines_no_prereq_reject hparse (by rw [hnopre]; rfl)
    rw [this]
    rfl
  have hls : lockScan locked st = (st, []) := lockScanGo_no_conflict locked st.files st hnolock
  simp only [processOne]
  rw [hparse]
  simp only [bind, Except.bind]
  rw [hrej, hls]
  dsimp only
  rw [hrej]
  cases hd : st.pkg_date with
  | some d => exact ⟨_, rfl, rfl, rfl, hnopre⟩
  | none => exact ⟨st, rfl, rfl, rfl, hnopre⟩

end Flrtvc

namespace Flrtvc

/-- C1: in every successful `check_epkgs` run the accepted candidates'
file sets are pairwise disjoint, and no accepted candidate's file belongs
to any installed fix of the `efixes` snapshot. -/
theorem c1_accepted_disjoint (epkg_list : List EpkgInput) (lpps : Lpps)
    (efixes : List (String × EfixInfo)) (acc rej : List String)
    (h : check_epkgs epkg_list lpps efixes = .ok (acc, rej)) :
    ∃ es, acceptedEpkgs epkg_list lpps efixes = .ok es ∧ acc = es.map Epkg.path ∧
      es.Pairwise (fun a b => ∀ f ∈ a.files, f ∉ b.files) ∧
      ∀ e ∈ es, ∀ le ∈ efixes, ∀ f ∈ e.files, f ∉ le.2.files := by
  obtain ⟨infos, rejs, hgo, hacc, hrej, hae⟩ := check_epkgs_unfold h
  have hinv := checkEpkgsGo_inv hgo (by intro pe hpe; cases hpe)
  have hmem : ∀ pe ∈ (greedyScan [] (sortDescBy secKey infos)).1, pe ∈ infos := by
    intro pe hpe
    exact (mem_sortDescBy secKey infos pe).mp ((greedyScan_sublist _ _).subset hpe)
  refine ⟨_, hae, ?_, ?_, ?_⟩
  · rw [hacc, List.map_map]
    refine List.map_congr_left ?_
    intro pe hpe
    exact (hinv pe (hmem pe hpe)).1
  · rw [List.pairwise_map]
    exact (greedyScan_clean (sortDescBy secKey infos) []).2
  · intro e he le hle f hf hffx
    rcases List.mem_map.mp he with ⟨pe, hpe, rfl⟩
    have hlk := (hinv pe (hmem pe hpe)).2.2.1 f hf
    exact (lookup_lockedFilesOf_none hlk).2 le hle hffx

/-- Witness for C1 at a concrete run: one candidate with one file, one
installed fix locking a different file. -/
theorem c1_accepted_disjoint_witness :
    ∃ es, acceptedEpkgs [⟨"/w/a.epkg", 0, "   LOCATION:      /fa\n"⟩] []
        [("E1", ⟨["/f1"], []⟩)] = .ok es ∧
      ["/w/a.epkg"] = es.map Epkg.path ∧
      es.Pairwise (fun a b => ∀ f ∈ a.files, f ∉ b.files) ∧
      ∀ e ∈ es, ∀ le ∈ [("E1", (⟨["/f1"], []⟩ : EfixInfo))], ∀ f ∈ e.files, f ∉ le.2.files :=
  c1_accepted_disjoint [⟨"/w/a.epkg", 0, "   LOCATION:      /fa\n"⟩] []
    [("E1", ⟨["/f1"], []⟩)] ["/w/a.epkg"] [] rfl

/-- C2: every accepted candidate's parsed prerequisites are satisfied by
the installed snapshot under component-wise lexicographic comparison of
integer vectors; and the version parser of `parse_lpps_info` maps
`"7.1.3.49"` to `[7,1,3,49]`, normalizes dashes to dots, strips non-numeric
suffixes, and `[1,0,2,1600]` lies within `[[1,0,2,1500], [1,0,2,1600]]`. -/
theorem c2_prereq_in_range :
    (∀ (epkg_list : List EpkgInput) (lpps : Lpps) (efixes : List (String × EfixInfo))
        (acc rej : List String),
      check_epkgs epkg_list lpps efixes = .ok (acc, rej) →
      ∃ es, acceptedEpkgs epkg_list lpps efixes = .ok es ∧ acc = es.map Epkg.path ∧
        ∀ e ∈ es, ∀ t ∈ e.prereq, prereqSat lpps t) ∧
    parseVersionInt "7.1.3.49" = [7, 1, 3, 49] ∧
    parseVersionInt "7200-03-02" = [7200, 3, 2] ∧
    parseVersionInt "7.1.3.49a" = [7, 1, 3, 49] ∧
    pyListLt [1, 0, 2, 1600] [1, 0, 2, 1500] = false ∧
    pyListLt [1, 0, 2, 1600] [1, 0, 2, 1600] = false := by
  refine ⟨?_, rfl, rfl, rfl, rfl, rfl⟩
  intro epkg_list lpps efixes acc rej h
  obtain ⟨infos, rejs, hgo, hacc, hrej, hae⟩ := check_epkgs_unfold h
  have hinv := checkEpkgsGo_inv hgo (by intro pe hpe; cases hpe)
  have hmem : ∀ pe ∈ (greedyScan [] (sortDescBy secKey infos)).1, pe ∈ infos := by
    intro pe hpe
    exact (mem_sortDescBy secKey infos pe).mp ((greedyScan_sublist _ _).subset hpe)
  refine ⟨_, hae, ?_, ?_⟩
  · rw [hacc, List.map_map]
    refine List.map_congr_left ?_
    intro pe hpe
    exact (hinv pe (hmem pe hpe)).1
  · intro e he t ht
    rcases List.mem_map.mp he with ⟨pe, hpe, rfl⟩
    exact (hinv pe (hmem pe hpe)).2.2.2 t ht

/-- Witness for C2 at a concrete run: one candidate declaring the
prerequisite `bos.rte` in range `[7.1.0.0, 7.2.0.0]`, installed at
7.1.5.0. -/
theorem c2_prereq_in_range_witness :
    ∃ es, acceptedEpkgs [⟨"/w/a.epkg", 0, "bos.rte 7.1.0.0 7.2.0.0\n"⟩]
        [("bos.rte", ⟨"7.1.5.0", [7, 1, 5, 0]⟩)] [] = .ok es ∧
      ["/w/a.epkg"] = es.map Epkg.path ∧
      ∀ e ∈ es, ∀ t ∈ e.prereq,
        prereqSat [("bos.rte", ⟨"7.1.5.0", [7, 1, 5, 0]⟩)] t :=
  (c2_prereq_in_range.1) [⟨"/w/a.epkg", 0, "bos.rte 7.1.0.0 7.2.0.0\n"⟩]
    [("bos.rte", ⟨"7.1.5.0", [7, 1, 5, 0]⟩)] [] ["/w/a.epkg"] [] rfl

end Flrtvc

namespace Flrtvc

/-- C3: the rejected list of every `check_epkgs` run is sorted in ascending
string order; the accepted list is sorted by `sec_from_epoch` descending;
the stable sort keeps ties (and generally any pair already in key order) in
input order; and a surviving candidate's key is `-1` when its packaging
date is missing, and exactly `to_utc_epoch`'s first component — hence `-1`
when date parsing failed — when present. -/
theorem c3_output_ordering :
    (∀ (epkg_list : List EpkgInput) (lpps : Lpps) (efixes : List (String × EfixInfo))
        (acc rej : List String),
      check_epkgs epkg_list lpps efixes = .ok (acc, rej) →
      rej.Pairwise (fun a b => pyStrLt b.toList a.toList = false) ∧
      ∃ es, acceptedEpkgs epkg_list lpps efixes = .ok es ∧ acc = es.map Epkg.path ∧
        es.Pairwise (fun a b => b.sec_from_epoch ≤ a.sec_from_epoch)) ∧
    (∀ (l0 l1 l2 : List (String × Epkg)) (a b : String × Epkg), secKey b ≤ secKey a →
      List.Sublist [a, b] (sortDescBy secKey (l0 ++ a :: l1 ++ b :: l2))) ∧
    (∀ (lpps : Lpps) (locked : List (String × String)) (inp : EpkgInput)
        (rs : List String) (e : Epkg), processOne lpps locked inp = .ok (rs, some e) →
      (e.pkg_date = none → e.sec_from_epoch = -1) ∧
      (∀ d, e.pkg_date = some d → e.sec_from_epoch = (to_utc_epoch d).1)) := by
  refine ⟨?_, ?_, ?_⟩
  · intro epkg_list lpps efixes acc rej h
    obtain ⟨infos, rejs, hgo, hacc, hrej, hae⟩ := check_epkgs_unfold h
    have hinv := checkEpkgsGo_inv hgo (by intro pe hpe; cases hpe)
    have hmem : ∀ pe ∈ (greedyScan [] (sortDescBy secKey infos)).1, pe ∈ infos := by
      intro pe hpe
      exact (mem_sortDescBy secKey infos pe).mp ((greedyScan_sublist _ _).subset hpe)
    constructor
    · rw [hrej]
      exact pairwise_sortAscStr _
    · refine ⟨_, hae, ?_, ?_⟩
      · rw [hacc, List.map_map]
        refine List.map_congr_left ?_
        intro pe hpe
        exact (hinv pe (hmem pe hpe)).1
      · rw [List.pairwise_map]
        exact (pairwise_sortDescBy secKey infos).sublist (greedyScan_sublist _ _)
  · exact fun l0 l1 l2 a b hk => sortDescBy_stable secKey hk l0 l1 l2
  · exact fun lpps locked inp rs e h => processOne_sec h

/-- Witness for C3 at a concrete run with two dated candidates and one
reject. -/
theorem c3_output_ordering_witness :
    (["/w/b.epkg", "/w/a.epkg"],
      ["c.epkg: prerequisite missing: missing.pkg"]).2.Pairwise
        (fun a b => pyStrLt b.toList a.toList = false) ∧
    ∃ es, acceptedEpkgs
        [⟨"/w/a.epkg", 0,
          "PACKAGING DATE:   Mon Oct  9 09:35:09 UTC 2017\n   LOCATION:      /fa\n"⟩,
         ⟨"/w/b.epkg", 0,
          "PACKAGING DATE:   Tue Oct 10 09:35:09 UTC 2017\n   LOCATION:      /fb\n"⟩,
         ⟨"/w/c.epkg", 0, "missing.pkg 1.0 2.0\n"⟩] [] [] = .ok es ∧
      (["/w/b.epkg", "/w/a.epkg"],
        ["c.epkg: prerequisite missing: missing.pkg"]).1 = es.map Epkg.path ∧
      es.Pairwise (fun a b => b.sec_from_epoch ≤ a.sec_from_epoch) :=
  c3_output_ordering.1
    [⟨"/w/a.epkg", 0,
      "PACKAGING DATE:   Mon Oct  9 09:35:09 UTC 2017\n   LOCATION:      /fa\n"⟩,
     ⟨"/w/b.epkg", 0,
      "PACKAGING DATE:   Tue Oct 10 09:35:09 UTC 2017\n   LOCATION:      /fb\n"⟩,
     ⟨"/w/c.epkg", 0, "missing.pkg 1.0 2.0\n"⟩] [] []
    ["/w/b.epkg", "/w/a.epkg"] ["c.epkg: prerequisite missing: missing.pkg"] rfl

/-- C7: (i) a candidate that survived the per-candidate phase and whose
files are disjoint from those of every earlier-sorted accepted candidate is
placed on the accepted list; (ii) a candidate with zero parsed
prerequisites and no file locked by an installed efix survives the
per-candidate phase un-rejected; (iii) the inspection command's exit code
does not influence the outcome (a candidate whose inspection failed is kept
by default). -/
theorem c7_no_prereq_no_overlap_accepted :
    (∀ (epkg_list : List EpkgInput) (lpps : Lpps) (efixes : List (String × EfixInfo))
        (acc rej : List String) (infos : List (String × Epkg)) (rejs : List String)
        (pre : List (String × Epkg)) (c : String × Epkg) (suf : List (String × Epkg)),
      check_epkgs epkg_list lpps efixes = .ok (acc, rej) →
      checkEpkgsGo lpps (lockedFilesOf efixes) epkg_list [] [] = .ok (infos, rejs) →
      sortDescBy secKey infos = pre ++ c :: suf →
      (∀ d ∈ pre, d ∈ (greedyScan [] (sortDescBy secKey infos)).1 →
        ∀ f ∈ c.2.files, f ∉ d.2.files) →
      c.1 ∈ acc) ∧
    (∀ (lpps : Lpps) (locked : List (String × String)) (inp : EpkgInput) (st : Epkg),
      parseEpkgLines lpps (initEpkg inp.path) (pySplitlines inp.stdout) = .ok st →
      st.prereq = [] →
      (∀ f ∈ st.files, List.lookup f locked = none) →
      ∃ e, processOne lpps locked inp = .ok ([], some e) ∧
        e.files = st.files ∧ e.path = st.path ∧ e.prereq = []) ∧
    (∀ (lpps : Lpps) (locked : List (String × String)) (path : String) (rc rc' : Int)
        (stdout : String),
      processOne lpps locked ⟨path, rc, stdout⟩ = processOne lpps locked ⟨path, rc', stdout⟩) := by
  refine ⟨?_, ?_, ?_⟩
  · intro epkg_list lpps efixes acc rej infos rejs pre c suf h hgo hsort hdis
    obtain ⟨infos', rejs', hgo', hacc, _, _⟩ := check_epkgs_unfold h
    rw [hgo] at hgo'
    injection hgo' with hgo'
    injection hgo' with h1 h2
    subst h1
    have hc : c ∈ (greedyScan [] (sortDescBy secKey infos)).1 := by
      rw [hsort]
      refine greedyScan_accept pre [] suf ?_ ?_
      · intro f _ hf
        cases hf
      · rw [← hsort]
        exact hdis
    rw [hacc]
    exact List.mem_map_of_mem Prod.fst hc
  · intro lpps locked inp st hparse hnopre hnolock
    exact processOne_keeps hparse hnopre hnolock
  · intro lpps locked path rc rc' stdout
    rfl

/-- Witness for C7 at a concrete run: a single candidate with no
prerequisite lines and one unlocked file is accepted. -/
theorem c7_no_prereq_no_overlap_accepted_witness :
    ("/w/a.epkg",
      { initEpkg "/w/a.epkg" with files := ["/fa"] }).1 ∈ ["/w/a.epkg"] :=
  c7_no_prereq_no_overlap_accepted.1
    [⟨"/w/a.epkg", 0, "   LOCATION:      /fa\n"⟩] [] [] ["/w/a.epkg"] []
    [("/w/a.epkg", { initEpkg "/w/a.epkg" with files := ["/fa"] })] []
    [] ("/w/a.epkg", { initEpkg "/w/a.epkg" with files := ["/fa"] }) []
    rfl rfl rfl
    (fun d hd _ => absurd hd (List.not_mem_nil d))

end Flrtvc
